import Mathlib

/-!
Verification of the graph-to-bytecode compiler in
`torch/csrc/jit/runtime/interpreter/code_impl.h` (`CodeImpl` / `MobileCodeImpl`).

Shallow embedding notes.

* `Instruction` is `{op, X, N}` as in the spec's data model (the enum and struct
  live in `runtime/instruction.h`, which is not part of the excerpt; the opcode
  names below are exactly the ones `code_impl.h` emits).  `X` is modelled as
  `Int` and `N` as `Nat`; `safe_narrow_cast` is the identity for every value
  arising in the claims (jump offsets and arities bounded by program length),
  so the `int32_t`/`uint16_t` narrowing is not modelled.
* The graph IR (`ir.h` is not part of the excerpt) is modelled structurally:
  a `Block` holds its parameter values, its non-inlined nodes in topological
  order, and the operands of its Return node; `preprocess_.can_emit_inline`
  (computed by the missing `preprocess_graph.h`) is represented structurally:
  an operand is either a reference to a registered value or an inline-emitted
  producing node.  A `ref` operand carries the kind test
  `input->node()->kind() == prim::Constant` as a Boolean.
* Node kinds covered are the ones the claims are about: `prim::Constant`,
  generic operators (`emitOperator`), `prim::If`, `prim::Loop`,
  `prim::BailOut`.  The remaining kinds of `emitNode`'s switch follow the same
  append-only pattern and are not needed by any claim.
* `operator_table_` stores opaque `Operation` callables; entries are modelled
  by the operator's unique schema name.  `function_table_`, `type_table_` and
  `bailout_functions_` store opaque pointers; they are modelled by their
  length, which is all the emitted operands depend on.  The debug side vector
  `instructions_source_` is not modelled (no claim mentions it).
* `TORCH_INTERNAL_ASSERT` / `AT_ASSERT` sites are noted in comments; the
  functions are modelled on their non-aborting paths, and theorems carry the
  corresponding hypotheses where relevant.
-/

/-- Opcodes emitted by `code_impl.h`.  Modelled from the spec: the enum itself
is in `runtime/instruction.h`, outside the excerpt; these are the opcode names
used by the emitter, plus `FAIL_GUARD` written by `request_bailout`. -/
inductive OpCode where
  | OP | OPN | LOAD | MOVE | LOADC | DROP | DROPR | STORE | STOREN | RET
  | JF | JMP | LOOP | GUARD | FAIL_GUARD | TAIL_CALL | CALL | WAIT
  | TYPECHECK | INTERFACE_CALL | PROFILE_OP | GET_ATTR | SET_ATTR
  | LIST_UNPACK | TUPLE_CONSTRUCT | NAMED_TUPLE_CONSTRUCT | LIST_CONSTRUCT
  | DICT_CONSTRUCT | CREATE_OBJECT | ISINSTANCE | TUPLE_SLICE | FORK | WARN
  | ENTER | EXIT
  deriving DecidableEq, Repr

/-- Instruction: `{ opcode, X, N }` (spec data model; `runtime/instruction.h`). -/
structure Instruction where
  op : OpCode
  X : Int
  N : Nat
  deriving DecidableEq, Repr

/-- The opcodes whose `X` operand is a relative jump offset (claim C1). -/
def Instruction.isJump (i : Instruction) : Bool :=
  i.op = OpCode.JF || i.op = OpCode.JMP || i.op = OpCode.LOOP

/-- BailoutBlock: a deferred instruction run plus the index of the JF
instruction whose jump target is patched to point at the block's eventual
position (`struct BailoutBlock` in code_impl.h). -/
structure BailoutBlock where
  jf_instruction_index : Nat
  instructions : List Instruction
  deriving DecidableEq, Repr

/-- First-match association-list lookup, modelling `std::unordered_map` reads;
insertions are modelled by prepending, so a re-insert shadows the old entry. -/
def alookup {α β : Type} [DecidableEq α] : List (α × β) → α → Option β
  | [], _ => none
  | p :: ps, k => if p.1 = k then some p.2 else alookup ps k

/-- Compiler state: the mutable fields of `struct CodeImpl` that the claims
are about. -/
structure CodeState where
  instructions : List Instruction
  constant_table : List Nat
  operator_table : List String
  function_table : Nat
  type_table : Nat
  register_size : Nat
  value_to_reg : List (Nat × Nat)
  use_count : List (Nat × Nat)
  bailout_blocks : List BailoutBlock
  bailout_functions : Nat
  op_to_num_specified_args : List (String × Nat)
  deriving DecidableEq, Repr

/-- Fresh state of a `CodeImpl` before `run()` executes. -/
def initState : CodeState :=
  { instructions := [], constant_table := [], operator_table := [],
    function_table := 0, type_table := 0, register_size := 0,
    value_to_reg := [], use_count := [], bailout_blocks := [],
    bailout_functions := 0, op_to_num_specified_args := [] }

/-- CodeImpl::insertInstruction (the topological-order debug assertion on OP
instructions is not modelled; it aborts compilation and changes no state). -/
def insertInstruction (s : CodeState) (op : OpCode) (x : Int) (n : Nat) : CodeState :=
  { s with instructions := s.instructions ++ [⟨op, x, n⟩] }

/-- In-place update of the `X` operand of the instruction at index `i`,
modelling `instructions_[i].X = ...` backpatching. -/
def patchX : List Instruction → Nat → Int → List Instruction
  | [], _, _ => []
  | a :: l, 0, x => ⟨a.op, x, a.N⟩ :: l
  | a :: l, i + 1, x => a :: patchX l i x

/-- CodeImpl::truncateInstructions. -/
def truncateInstructions (s : CodeState) (size : Nat) : CodeState :=
  { s with instructions := s.instructions.take size }

/-- CodeImpl::createBailoutBlock: move everything after the recorded JF into a
new deferred BailoutBlock and truncate the main stream back to the JF. -/
def createBailoutBlock (s : CodeState) (jf_index : Nat) : CodeState :=
  { s with
    bailout_blocks :=
      s.bailout_blocks ++ [⟨jf_index, s.instructions.drop (jf_index + 1)⟩],
    instructions := s.instructions.take (jf_index + 1) }

/-- Register-map extension performed by CodeImpl::allocRegs's loop:
`value_to_reg_[v] = ++register_size_` for each value. -/
def allocRegsList : List (Nat × Nat) → Nat → List Nat → List (Nat × Nat) × Nat
  | m, rs, [] => (m, rs)
  | m, rs, v :: vs => allocRegsList ((v, rs + 1) :: m) (rs + 1) vs

/-- CodeImpl::allocRegs.  Returns `register_size_ + 1` (the first fresh index)
and the updated state.  The `AT_ASSERT(value_to_reg_.count(v) == 0)` freshness
assertion is a hypothesis of the theorems about this function. -/
def allocRegs (s : CodeState) (vs : List Nat) : Nat × CodeState :=
  let p := allocRegsList s.value_to_reg s.register_size vs
  (s.register_size + 1, { s with value_to_reg := p.1, register_size := p.2 })

/-- CodeImpl::registerFor (`value_to_reg_.at(v)`; the out-of-bounds throw is
modelled by the default 0, which no well-formed emission reaches). -/
def registerFor (s : CodeState) (v : Nat) : Nat :=
  (alookup s.value_to_reg v).getD 0

/-- CodeImpl::insertConstant: append to the constant table, return the slot. -/
def insertConstant (s : CodeState) (value : Nat) : Nat × CodeState :=
  (s.constant_table.length, { s with constant_table := s.constant_table ++ [value] })

/-- CodeImpl::emitType: append an (opaque) type to the type table. -/
def emitType (s : CodeState) : Nat × CodeState :=
  (s.type_table, { s with type_table := s.type_table + 1 })

/-- CodeImpl::emitConstant: a FunctionType constant is skipped entirely;
otherwise the value goes into the constant table and the node's output value
is bound to the table slot in `value_to_reg_`. -/
def emitConstant (s : CodeState) (out val : Nat) (isFnType : Bool) : CodeState :=
  if isFnType then s
  else
    let p := insertConstant s val
    { p.2 with value_to_reg := (out, p.1) :: p.2.value_to_reg }

/-- CodeImpl::emitStoreOutputs: nothing for zero outputs, otherwise allocate
registers for the outputs and STORE (one) / STOREN (several). -/
def emitStoreOutputs (s : CodeState) (outs : List Nat) : CodeState :=
  if outs.length = 0 then s
  else
    let p := allocRegs s outs
    if outs.length = 1 then insertInstruction p.2 OpCode.STORE p.1 0
    else insertInstruction p.2 OpCode.STOREN p.1 outs.length

/-- Scan loop of CodeImpl::request_bailout: walk the instruction list; at each
GUARD or FAIL_GUARD test `count-- == 0`; on hit, rewrite the opcode to
FAIL_GUARD and stop. -/
def requestBailoutAux : List Instruction → Nat → List Instruction
  | [], _ => []
  | ins :: rest, count =>
    if ins.op = OpCode.GUARD ∨ ins.op = OpCode.FAIL_GUARD then
      if count = 0 then ⟨OpCode.FAIL_GUARD, ins.X, ins.N⟩ :: rest
      else ins :: requestBailoutAux rest (count - 1)
    else ins :: requestBailoutAux rest count

/-- CodeImpl::request_bailout. -/
def request_bailout (s : CodeState) (index : Nat) : CodeState :=
  { s with instructions := requestBailoutAux s.instructions index }

/-- Loop body of CodeImpl::insertBailoutBlocks: patch the recorded JF's offset
to the current end of the stream and append the deferred block there.  (The
`TORCH_INTERNAL_ASSERT(instructions_[jf].op == JF)` holds on every compiled
state, as proved below.) -/
def insertBailoutBlocksAux : List Instruction → List BailoutBlock → List Instruction
  | instrs, [] => instrs
  | instrs, b :: bs =>
      insertBailoutBlocksAux
        (patchX instrs b.jf_instruction_index
            ((instrs.length : Int) - (b.jf_instruction_index : Int))
          ++ b.instructions) bs

/-- CodeImpl::insertBailoutBlocks. -/
def insertBailoutBlocks (s : CodeState) : CodeState :=
  { s with instructions := insertBailoutBlocksAux s.instructions s.bailout_blocks }

/-!
The graph IR.  `ir.h` is outside the excerpt; this is the structural model the
emitter needs.  Values are identified by `Nat` ids.  A `Block` mirrors the IR
block walked by `emitCodeForBlock`: the Param node's outputs (block
parameters), the nodes emitted at block level, and the Return node's inputs.
Inline-emission flags (`preprocess_.can_emit_inline`, computed by the missing
`preprocess_graph.h`) are represented structurally: a node consumed inline is
embedded at its use site (`Operand.inlined`), a registered value is consumed
by reference (`Operand.ref`).  `Operand.ref` carries the result of the kind
test `input->node()->kind() == prim::Constant` used by `emitUse`.
-/

mutual
inductive Node where
  | constant (out : Nat) (val : Nat) (isFnType : Bool)
  | opNode (is_vararg : Bool) (name : String) (overload : String)
      (necessary : Nat) (inputs : List Operand) (outputs : List Nat)
  | ifNode (inputs : List Operand) (thenBlock : Block) (elseBlock : Block)
      (outputs : List Nat)
  | loopNode (inputs : List Operand) (body : Block) (outputs : List Nat)
  | bailOutNode (inputs : List Operand) (outputs : List Nat)
inductive Operand where
  | inlined (n : Node)
  | ref (v : Nat) (isConst : Bool)
inductive Block where
  | mk (params : List Nat) (nodes : List Node) (rets : List Operand)
end

/-- Output values of a node (`node->outputs()`). -/
def Node.outputs : Node → List Nat
  | .constant out _ _ => [out]
  | .opNode _ _ _ _ _ outs => outs
  | .ifNode _ _ _ outs => outs
  | .loopNode _ _ outs => outs
  | .bailOutNode _ outs => outs

/-- Unique operator name: schema name, suffixed with "." and the overload name
when the overload name is nonempty (MobileCodeImpl::process_ops_for_mobile). -/
def uniqueName (name overload : String) : String :=
  if overload = "" then name else name ++ "." ++ overload

mutual
/-- Occurrences of value `v` among a node's operands (including operands of
inline-embedded producing nodes), modelling the uses contributed by the node. -/
def Node.usesOf (v : Nat) : Node → Nat
  | .constant _ _ _ => 0
  | .opNode _ _ _ _ ins _ => operandsUses v ins
  | .ifNode ins t e _ => operandsUses v ins + t.usesOf v + e.usesOf v
  | .loopNode ins b _ => operandsUses v ins + b.usesOf v
  | .bailOutNode ins _ => operandsUses v ins
def Operand.usesOf (v : Nat) : Operand → Nat
  | .inlined n => n.usesOf v
  | .ref w _ => if w = v then 1 else 0
def operandsUses (v : Nat) : List Operand → Nat
  | [] => 0
  | o :: os => o.usesOf v + operandsUses v os
def Block.usesOf (v : Nat) : Block → Nat
  | .mk _ ns rs => nodesUses v ns + operandsUses v rs
def nodesUses (v : Nat) : List Node → Nat
  | [] => 0
  | n :: ns => n.usesOf v + nodesUses v ns
end

/-- Static use count of each value of graph `g` (`input->uses().size()`),
derived by counting its occurrences as an operand anywhere in the graph. -/
def totalUses (g : Block) (v : Nat) : Nat := g.usesOf v

mutual
/-- Nodes eligible for inline emission.  Modelled from the spec: the
eligibility pass lives in the missing `preprocess_graph.h`; per the spec an
inlined producing node is "cheap/side-effect-free", so control-flow nodes
(If, Loop) and BailOut nodes are never re-emitted at a use site. -/
def Node.simple : Node → Bool
  | .constant _ _ _ => true
  | .opNode _ _ _ _ ins _ => operandsSimple ins
  | .ifNode _ _ _ _ => false
  | .loopNode _ _ _ => false
  | .bailOutNode _ _ => false
def Operand.simpleOk : Operand → Bool
  | .inlined n => n.simple
  | .ref _ _ => true
def operandsSimple : List Operand → Bool
  | [] => true
  | o :: os => o.simpleOk && operandsSimple os
end

mutual
/-- Well-formed IR: every operand's inline-embedded node is eligible
(`Operand.simpleOk`), and a BailOut node has at least its two leading inputs
(the unoptimized-graph input and the guarded input, `emitGuard` /
`emitBailOut`). -/
def Node.wfB : Node → Bool
  | .constant _ _ _ => true
  | .opNode _ _ _ _ ins _ => operandsSimple ins
  | .ifNode ins t e _ => operandsSimple ins && t.wfB && e.wfB
  | .loopNode ins b _ => operandsSimple ins && b.wfB
  | .bailOutNode ins _ => operandsSimple ins && decide (2 ≤ ins.length)
def Block.wfB : Block → Bool
  | .mk _ ns rs => nodesWf ns && operandsSimple rs
def nodesWf : List Node → Bool
  | [] => true
  | n :: ns => n.wfB && nodesWf ns
end

mutual
/-- CodeImpl::emitUse.  `u` is the static use-count function of the graph
(`input->uses().size()`).  An inline-eligible producing node is re-emitted
(plus DROP when dropping); otherwise the value's register is consulted, the
running per-value use counter is incremented, and the opcode is LOADC for
constants, MOVE at the final use, LOAD otherwise, overridden by DROPR when
dropping. -/
def emitUse (u : Nat → Nat) (s : CodeState) (drop : Bool) : Operand → CodeState
  | .inlined n =>
    let s1 := emitNode u s n
    if drop then insertInstruction s1 OpCode.DROP 0 0 else s1
  | .ref v isConst =>
    let reg := registerFor s v
    let cnt := (alookup s.use_count v).getD 0 + 1
    let s1 := { s with use_count := (v, cnt) :: s.use_count }
    let op : OpCode :=
      if isConst then OpCode.LOADC
      else if u v = cnt then OpCode.MOVE
      else OpCode.LOAD
    insertInstruction s1 (if drop then OpCode.DROPR else op) reg 0

/-- CodeImpl::emitLoadInputs. -/
def emitLoadInputs (u : Nat → Nat) (s : CodeState) : List Operand → CodeState
  | [] => s
  | o :: os => emitLoadInputs u (emitUse u s false o) os

/-- CodeImpl::emitNode: dispatch on the node kind.  Operator emission
(`emitOperator`), If lowering (`emitIf`), Loop lowering (`emitLoop`) and
BailOut lowering (`emitGuard`/`emitBailOut`) are written out in place so that
the recursion is structural; the named standalone functions below are proved
definitionally equal to the corresponding cases. -/
def emitNode (u : Nat → Nat) (s : CodeState) : Node → CodeState
  | .constant out v fn => emitConstant s out v fn
  | .opNode vararg nm ov _nec ins _outs =>
    let s1 := emitLoadInputs u s ins
    let s2 :=
      if vararg then insertInstruction s1 OpCode.OPN s1.operator_table.length ins.length
      else insertInstruction s1 OpCode.OP s1.operator_table.length 0
    { s2 with operator_table := s2.operator_table ++ [uniqueName nm ov] }
  | .ifNode ins t e _outs =>
    let s1 := emitLoadInputs u s ins
    let start_if := s1.instructions.length
    let s2 := insertInstruction s1 OpCode.JF 0 0
    let s3 := emitCodeForBlock u s2 t
    let s4 := insertInstruction s3 OpCode.JMP 0 0
    let start_else := s4.instructions.length
    let s5 := { s4 with
      instructions := patchX s4.instructions start_if ((start_else : Int) - (start_if : Int)) }
    let s6 := emitCodeForBlock u s5 e
    { s6 with
      instructions := patchX s6.instructions (start_else - 1)
        ((s6.instructions.length : Int) - ((start_else : Int) - 1)) }
  | .loopNode ins b _outs =>
    let p := insertConstant s 0
    let s1 := insertInstruction p.2 OpCode.LOADC p.1 0
    let s2 := emitLoadInputs u s1 ins
    let start := s2.instructions.length
    let s3 := insertInstruction s2 OpCode.LOOP 0 ins.length
    let s4 := emitCodeForBlock u s3 b
    let s5 := insertInstruction s4 OpCode.JMP ((start : Int) - (s4.instructions.length : Int)) 0
    { s5 with
      instructions := patchX s5.instructions start
        ((s5.instructions.length : Int) - (start : Int)) }
  | .bailOutNode ins _outs =>
    match ins with
    | _g :: guarded :: rest =>
      let s1 := emitUse u s false guarded
      let p := emitType s1
      let s2 := insertInstruction p.2 OpCode.GUARD p.1 0
      let s3 := insertInstruction s2 OpCode.JF 0 0
      let jf := s3.instructions.length - 1
      let s4 := emitLoadInputs u s3 rest
      let s5 := insertInstruction s4 OpCode.TAIL_CALL s4.function_table 0
      let s6 := { s5 with
        function_table := s5.function_table + 1,
        bailout_functions := s5.bailout_functions + 1 }
      createBailoutBlock s6 jf
    | _ =>
      -- unreachable for well-formed IR (a BailOut node has at least the
      -- unoptimized-graph input and the guarded input); mirrored with no loads
      let p := emitType s
      let s2 := insertInstruction p.2 OpCode.GUARD p.1 0
      let s3 := insertInstruction s2 OpCode.JF 0 0
      let jf := s3.instructions.length - 1
      let s5 := insertInstruction s3 OpCode.TAIL_CALL s3.function_table 0
      let s6 := { s5 with
        function_table := s5.function_table + 1,
        bailout_functions := s5.bailout_functions + 1 }
      createBailoutBlock s6 jf

/-- CodeImpl::emitNodeAtBlockLevel over the block's node list: a Constant is
lowered by `emitConstant` alone; any other (non-inlined) node is emitted and
its outputs stored (`emitStoreOutputs`). -/
def emitNodesAtBlockLevel (u : Nat → Nat) (s : CodeState) : List Node → CodeState
  | [] => s
  | n :: ns =>
    let s1 :=
      match n with
      | .constant out v fn => emitConstant s out v fn
      | _ => emitStoreOutputs (emitNode u s n) n.outputs
    emitNodesAtBlockLevel u s1 ns

/-- CodeImpl::emitCodeForBlock: the Param node (whose `emitNodeAtBlockLevel`
reduces to storing the block parameters), the block nodes, then the Return
node (whose `emitNodeAtBlockLevel` is `emitLoadInputs` of its inputs). -/
def emitCodeForBlock (u : Nat → Nat) (s : CodeState) : Block → CodeState
  | .mk params ns rs => emitLoadInputs u (emitNodesAtBlockLevel u (emitStoreOutputs s params) ns) rs
end

/-- CodeImpl::emitOperator (named standalone form; `emitNode` performs exactly
this on an operator node).  Loads the inputs, emits OPN (vararg schemas with
an operation) or OP addressing the next operator-table slot, and appends the
resolved operation (modelled by the operator's unique name) to the table. -/
def CodeImpl.emitOperator (u : Nat → Nat) (s : CodeState) (is_vararg : Bool)
    (name overload : String) (ins : List Operand) : CodeState :=
  let s1 := emitLoadInputs u s ins
  let s2 :=
    if is_vararg then insertInstruction s1 OpCode.OPN s1.operator_table.length ins.length
    else insertInstruction s1 OpCode.OP s1.operator_table.length 0
  { s2 with operator_table := s2.operator_table ++ [uniqueName name overload] }

/-- CodeImpl::emitIf (named standalone form): conditional-input loads, JF with
a dummy offset, the true block, JMP with a dummy offset, backpatch the JF to
the start of the false region, the false block, backpatch the JMP past it. -/
def emitIf (u : Nat → Nat) (s : CodeState) (ins : List Operand) (t e : Block) : CodeState :=
  let s1 := emitLoadInputs u s ins
  let start_if := s1.instructions.length
  let s2 := insertInstruction s1 OpCode.JF 0 0
  let s3 := emitCodeForBlock u s2 t
  let s4 := insertInstruction s3 OpCode.JMP 0 0
  let start_else := s4.instructions.length
  let s5 := { s4 with
    instructions := patchX s4.instructions start_if ((start_else : Int) - (start_if : Int)) }
  let s6 := emitCodeForBlock u s5 e
  { s6 with
    instructions := patchX s6.instructions (start_else - 1)
      ((s6.instructions.length : Int) - ((start_else : Int) - 1)) }

/-- CodeImpl::emitLoop (named standalone form): LOADC of a fresh constant 0
(initial trip count), the loop-input loads, a LOOP placeholder recording the
input arity as `N`, the body, a backward JMP to the LOOP, and the backpatch of
LOOP's forward-skip offset to just past the JMP. -/
def emitLoop (u : Nat → Nat) (s : CodeState) (ins : List Operand) (b : Block) : CodeState :=
  let p := insertConstant s 0
  let s1 := insertInstruction p.2 OpCode.LOADC p.1 0
  let s2 := emitLoadInputs u s1 ins
  let start := s2.instructions.length
  let s3 := insertInstruction s2 OpCode.LOOP 0 ins.length
  let s4 := emitCodeForBlock u s3 b
  let s5 := insertInstruction s4 OpCode.JMP ((start : Int) - (s4.instructions.length : Int)) 0
  { s5 with
    instructions := patchX s5.instructions start
      ((s5.instructions.length : Int) - (start : Int)) }

/-- CodeImpl::emitGuard (named standalone form): load the guarded input
(`inputs().slice(1, 1)`), GUARD addressing a fresh type-table slot, a JF to be
patched; returns the JF's index. -/
def emitGuard (u : Nat → Nat) (s : CodeState) (guarded : Operand) : Nat × CodeState :=
  let s1 := emitUse u s false guarded
  let p := emitType s1
  let s2 := insertInstruction p.2 OpCode.GUARD p.1 0
  let s3 := insertInstruction s2 OpCode.JF 0 0
  (s3.instructions.length - 1, s3)

/-- CodeImpl::emitBailOut (named standalone form): `emitGuard`, the remaining
input loads (`inputs().slice(2)`), TAIL_CALL addressing the next function-table
slot, registration of the lazily built bailout GraphFunction (opaque; the
tables' growth is modelled), then `createBailoutBlock`. -/
def emitBailOut (u : Nat → Nat) (s : CodeState) (ins : List Operand) : CodeState :=
  match ins with
  | _g :: guarded :: rest =>
    let p := emitGuard u s guarded
    let s4 := emitLoadInputs u p.2 rest
    let s5 := insertInstruction s4 OpCode.TAIL_CALL s4.function_table 0
    let s6 := { s5 with
      function_table := s5.function_table + 1,
      bailout_functions := s5.bailout_functions + 1 }
    createBailoutBlock s6 p.1
  | _ =>
    let p := emitType s
    let s2 := insertInstruction p.2 OpCode.GUARD p.1 0
    let s3 := insertInstruction s2 OpCode.JF 0 0
    let jf := s3.instructions.length - 1
    let s5 := insertInstruction s3 OpCode.TAIL_CALL s3.function_table 0
    let s6 := { s5 with
      function_table := s5.function_table + 1,
      bailout_functions := s5.bailout_functions + 1 }
    createBailoutBlock s6 jf

/-- CodeImpl::emitNodeAtBlockLevel (named standalone form). -/
def emitNodeAtBlockLevel (u : Nat → Nat) (s : CodeState) (n : Node) : CodeState :=
  match n with
  | .constant out v fn => emitConstant s out v fn
  | _ => emitStoreOutputs (emitNode u s n) n.outputs

/-- CodeImpl::run: emit the root block, the final RET, then splice in the
deferred bailout blocks. -/
def CodeImpl.run (g : Block) : CodeState :=
  let u := totalUses g
  let s1 := emitCodeForBlock u initState g
  let s2 := insertInstruction s1 OpCode.RET 0 0
  insertBailoutBlocks s2

mutual
/-- Nodes nested inside a node: inline-embedded producing nodes of its
operands and the nodes of its nested blocks.  Modelled from the spec: the
depth-first whole-graph traversal (`DepthFirstGraphNodeIterator`,
`runtime/graph_iterator.h`) is outside the excerpt; the spec describes "a
single forward scan of every call site", and the aggregation proved below is
order-independent. -/
def Node.inner : Node → List Node
  | .constant _ _ _ => []
  | .opNode _ _ _ _ ins _ => operandsNodes ins
  | .ifNode ins t e _ => operandsNodes ins ++ t.allNodes ++ e.allNodes
  | .loopNode ins b _ => operandsNodes ins ++ b.allNodes
  | .bailOutNode ins _ => operandsNodes ins
def operandsNodes : List Operand → List Node
  | [] => []
  | o :: os =>
    (match o with
     | .inlined n => n :: n.inner
     | .ref _ _ => []) ++ operandsNodes os
def Block.allNodes : Block → List Node
  | .mk _ ns rs => nodesAll ns ++ operandsNodes rs
def nodesAll : List Node → List Node
  | [] => []
  | n :: ns => (n :: n.inner) ++ nodesAll ns
end

/-- Table update of MobileCodeImpl::process_ops_for_mobile for one call site:
insert the name with default 0 if absent, then store the max of the previous
value and the new count. -/
def setMaxArg (m : List (String × Nat)) (key : String) (v : Nat) : List (String × Nat) :=
  (key, max v ((alookup m key).getD 0)) :: m

/-- Scan loop of MobileCodeImpl::process_ops_for_mobile: for every node with
an operator whose schema is not vararg, record the maximum count of necessary
arguments under the operator's unique name.  `necessary` is the per-call-site
result of `CalculateNecessaryArgs` (its definition,
`frontend/calculate_necessary_args.h`, is outside the excerpt and is carried
as an input annotation). -/
def processOpsFold (m : List (String × Nat)) : List Node → List (String × Nat)
  | [] => m
  | n :: ns =>
    match n with
    | .opNode vararg nm ov nec _ _ =>
      if vararg then processOpsFold m ns
      else processOpsFold (setMaxArg m (uniqueName nm ov) nec) ns
    | _ => processOpsFold m ns

/-- The `CalculateNecessaryArgs` results of the non-vararg call sites of a
given unique operator name, in scan order (used to state claim C9). -/
def specifiedArgSites (ns : List Node) (key : String) : List Nat :=
  ns.filterMap fun n =>
    match n with
    | .opNode vararg nm ov nec _ _ =>
      if vararg = false ∧ uniqueName nm ov = key then some nec else none
    | _ => none

/-- MobileCodeImpl::process_ops_for_mobile. -/
def MobileCodeImpl.process_ops_for_mobile (s : CodeState) (g : Block) : CodeState :=
  { s with op_to_num_specified_args := processOpsFold s.op_to_num_specified_args g.allNodes }

/-- MobileCodeImpl::emitOperator: delegates unchanged to CodeImpl::emitOperator
(its argument-trimming body is commented out in the source). -/
def MobileCodeImpl.emitOperator :
    (Nat → Nat) → CodeState → Bool → String → String → List Operand → CodeState :=
  CodeImpl.emitOperator

/-- MobileCodeImpl::run: the mobile pre-pass, then the same emission pipeline
as CodeImpl::run (the virtual `emitOperator` resolves to the delegating
override above, so the emitted code is unchanged). -/
def MobileCodeImpl.run (g : Block) : CodeState :=
  let u := totalUses g
  let s0 := MobileCodeImpl.process_ops_for_mobile initState g
  let s1 := emitCodeForBlock u s0 g
  let s2 := insertInstruction s1 OpCode.RET 0 0
  insertBailoutBlocks s2

/-- Jump validity (claim C1): every JF/JMP/LOOP instruction at index `i` with
operand `X` addresses a valid instruction index `i + X` of the program. -/
def JumpValid (l : List Instruction) : Prop :=
  ∀ (i : Nat) (ins : Instruction), l[i]? = some ins → ins.isJump = true →
    0 ≤ (i : Int) + ins.X ∧ (i : Int) + ins.X < (l.length : Int)

/-- Number of GUARD instructions of a program. -/
def countGuards (l : List Instruction) : Nat :=
  (l.filter fun ins => ins.op = OpCode.GUARD).length

/-- Index of the `k`-th (0-based) GUARD instruction, in instruction order. -/
def guardIdx : List Instruction → Nat → Option Nat
  | [], _ => none
  | ins :: rest, k =>
    if ins.op = OpCode.GUARD then
      if k = 0 then some 0 else (guardIdx rest (k - 1)).map (· + 1)
    else (guardIdx rest k).map (· + 1)

/-- Index at which the `k`-th deferred bailout stream lands: the end of the
main program plus the lengths of the streams appended before it (claim C2). -/
def blockStart (instrs : List Instruction) (bs : List BailoutBlock) (k : Nat) : Nat :=
  instrs.length + ((bs.take k).map fun b => b.instructions.length).sum

/-- Append-only growth of the instruction stream and the deferred blocks
between two compiler states: the old stream is preserved verbatim, every new
jump targets the region between the old and the new end (the only unresolved
jumps, GUARD's JF placeholders, carry offset 0 and are self-targeting), no
new instruction is a FAIL_GUARD, and every new deferred block is nonempty,
jump-free and FAIL_GUARD-free. -/
structure Emits (s t : CodeState) : Prop where
  instr_ext : ∃ d, t.instructions = s.instructions ++ d
  jumps_ok : ∀ i ins, s.instructions.length ≤ i → t.instructions[i]? = some ins →
    ins.isJump = true →
    (s.instructions.length : Int) ≤ (i : Int) + ins.X ∧
      (i : Int) + ins.X ≤ (t.instructions.length : Int)
  no_fg : ∀ i ins, s.instructions.length ≤ i → t.instructions[i]? = some ins →
    ins.op ≠ OpCode.FAIL_GUARD
  blocks_ext : ∃ bs, t.bailout_blocks = s.bailout_blocks ++ bs ∧
    ∀ b ∈ bs, b.instructions ≠ [] ∧
      ∀ ins ∈ b.instructions, ins.isJump = false ∧ ins.op ≠ OpCode.FAIL_GUARD

/-- Benign growth: only non-jump, non-FAIL_GUARD instructions are appended and
no deferred block is created (the effect of emitting loads and inline-eligible
nodes). -/
def BenignExt (s t : CodeState) : Prop :=
  (∃ d, t.instructions = s.instructions ++ d ∧
    ∀ ins ∈ d, ins.isJump = false ∧ ins.op ≠ OpCode.FAIL_GUARD) ∧
  t.bailout_blocks = s.bailout_blocks

/-- Example graph for the `z = if (cond) a+b else a-b; return z` claim-C4
scenario: root parameters a, b, cond (values 1, 2, 3), an If on cond whose
branches apply a registered binary operator to a and b, returning the If
output z (value 6).  This is the true branch. -/
def gIfThen : Block :=
  .mk [] [.opNode false "aten::add" "" 2 [.ref 1 false, .ref 2 false] [4]] [.ref 4 false]

/-- False branch of the claim-C4 scenario graph. -/
def gIfElse : Block :=
  .mk [] [.opNode false "aten::sub" "" 2 [.ref 1 false, .ref 2 false] [5]] [.ref 5 false]

/-- Root graph of the claim-C4 scenario. -/
def gIfEx : Block :=
  .mk [1, 2, 3] [.ifNode [.ref 3 false] gIfThen gIfElse [6]] [.ref 6 false]

/-- Example graph for the single-GUARD claim-C2 scenario: one parameter (value
1), one BailOut node guarding it (input 0 is the unoptimized-graph input,
value 100), whose output (value 2) is returned. -/
def gBailEx : Block :=
  .mk [1]
    [ .bailOutNode [.ref 100 false, .ref 1 false] [2] ]
    [.ref 2 false]

/-- Example graph for the claim-C5 scenario: a Loop whose body is empty (it
never reads or writes any loop-carried value), with the two mandatory loop
inputs (trip count, initial condition: values 1, 2).  The empty body. -/
def gLoopBody : Block := .mk [] [] []

/-- Root graph of the claim-C5 scenario. -/
def gLoopEx : Block :=
  .mk [1, 2] [.loopNode [.ref 1 false, .ref 2 false] gLoopBody []] []

/-- Example graph for the claim-C7 counterexample: two constants (bound to
constant-table slots 0 and 1) and one operator whose stored output is
allocated register 1, so values 2 and 3 both map to index 1 in
`value_to_reg_`. -/
def gConstEx : Block :=
  .mk []
    [ .constant 1 10 false, .constant 2 20 false,
      .opNode false "aten::add" "" 2 [.ref 1 true, .ref 2 true] [3] ]
    [.ref 3 false]

/-- State of `emitIf` at the start of the false region (`start_else`): the
conditional-input loads, the JF backpatched to `start_else - start_if`, the
true block, and the still-dummy JMP (used to state claim C4). -/
def emitIfElseEntry (u : Nat → Nat) (s : CodeState) (ins : List Operand) (t : Block) : CodeState :=
  let s1 := emitLoadInputs u s ins
  let start_if := s1.instructions.length
  let s2 := insertInstruction s1 OpCode.JF 0 0
  let s3 := emitCodeForBlock u s2 t
  let s4 := insertInstruction s3 OpCode.JMP 0 0
  { s4 with
    instructions := patchX s4.instructions start_if
      ((s4.instructions.length : Int) - (start_if : Int)) }

/-! ### Supporting lemmas: `patchX`, `alookup`, basic state facts -/

theorem patchX_length (l : List Instruction) (i : Nat) (x : Int) :
    (patchX l i x).length = l.length := by
  induction l generalizing i with
  | nil => rfl
  | cons a l ih =>
    cases i with
    | zero => rfl
    | succ i => simp [patchX, ih]

theorem patchX_oob (l : List Instruction) (i : Nat) (x : Int) (h : l.length ≤ i) :
    patchX l i x = l := by
  induction l generalizing i with
  | nil => rfl
  | cons a l ih =>
    cases i with
    | zero => simp at h
    | succ i =>
      simp only [patchX, List.cons.injEq, true_and]
      exact ih i (by simpa using h)

theorem patchX_append_left (l1 l2 : List Instruction) (i : Nat) (x : Int)
    (h : i < l1.length) : patchX (l1 ++ l2) i x = patchX l1 i x ++ l2 := by
  induction l1 generalizing i with
  | nil => simp at h
  | cons a l1 ih =>
    cases i with
    | zero => rfl
    | succ i =>
      simp only [List.cons_append, patchX, List.cons.injEq, true_and]
      exact ih i (by simpa using h)

theorem patchX_append_right (l1 l2 : List Instruction) (i : Nat) (x : Int)
    (h : l1.length ≤ i) : patchX (l1 ++ l2) i x = l1 ++ patchX l2 (i - l1.length) x := by
  induction l1 generalizing i with
  | nil => simp
  | cons a l1 ih =>
    cases i with
    | zero => simp at h
    | succ i =>
      have hidx : i + 1 - (a :: l1).length = i - l1.length := by
        simp only [List.length_cons]
        omega
      rw [hidx]
      show a :: patchX (l1 ++ l2) i x = (a :: l1) ++ patchX l2 (i - l1.length) x
      rw [List.cons_append, ih i (by simpa using h)]

theorem patchX_getElem_ne (l : List Instruction) (i j : Nat) (x : Int) (h : j ≠ i) :
    (patchX l i x)[j]? = l[j]? := by
  induction l generalizing i j with
  | nil => rfl
  | cons a l ih =>
    cases i with
    | zero =>
      cases j with
      | zero => exact absurd rfl h
      | succ j => simp [patchX]
    | succ i =>
      cases j with
      | zero => simp [patchX]
      | succ j =>
        simp only [patchX, List.getElem?_cons_succ]
        exact ih i j (by omega)

theorem patchX_getElem_eq (l : List Instruction) (i : Nat) (x : Int)
    (h : i < l.length) :
    (patchX l i x)[i]? = (l[i]?).map fun a => ⟨a.op, x, a.N⟩ := by
  induction l generalizing i with
  | nil => simp at h
  | cons a l ih =>
    cases i with
    | zero => simp [patchX]
    | succ i =>
      simp only [patchX, List.getElem?_cons_succ]
      exact ih i (by simpa using h)

theorem alookup_cons (k a : Nat) (v : Nat) (m : List (Nat × Nat)) :
    alookup ((a, v) :: m) k = if a = k then some v else alookup m k := rfl

/-! ### The `Emits` and `BenignExt` calculus -/

theorem Emits.len_le {s t : CodeState} (h : Emits s t) :
    s.instructions.length ≤ t.instructions.length := by
  obtain ⟨d, hd⟩ := h.instr_ext
  simp [hd]

theorem BenignExt.length_le {s t : CodeState} (h : BenignExt s t) :
    s.instructions.length ≤ t.instructions.length := by
  obtain ⟨⟨d, hd, _⟩, _⟩ := h
  simp [hd]

theorem BenignExt.self (s : CodeState) : BenignExt s s :=
  ⟨⟨[], by simp, by simp⟩, rfl⟩

theorem BenignExt.comp {s t r : CodeState} (h1 : BenignExt s t) (h2 : BenignExt t r) :
    BenignExt s r := by
  obtain ⟨⟨d1, hd1, hb1⟩, hbl1⟩ := h1
  obtain ⟨⟨d2, hd2, hb2⟩, hbl2⟩ := h2
  refine ⟨⟨d1 ++ d2, by simp [hd2, hd1], ?_⟩, hbl2.trans hbl1⟩
  intro ins hins
  rcases List.mem_append.mp hins with h | h
  · exact hb1 ins h
  · exact hb2 ins h

theorem BenignExt.snoc {s t : CodeState} (h : BenignExt s t) (op : OpCode) (x : Int) (n : Nat)
    (h1 : (Instruction.mk op x n).isJump = false) (h2 : op ≠ OpCode.FAIL_GUARD) :
    BenignExt s (insertInstruction t op x n) := by
  obtain ⟨⟨d, hd, hb⟩, hbl⟩ := h
  refine ⟨⟨d ++ [⟨op, x, n⟩], by simp [insertInstruction, hd], ?_⟩, hbl⟩
  intro ins hins
  rcases List.mem_append.mp hins with hm | hm
  · exact hb ins hm
  · simp at hm
    subst hm
    exact ⟨h1, h2⟩

theorem BenignExt.congr_state {s t r : CodeState} (h : BenignExt s t)
    (hi : r.instructions = t.instructions) (hb : r.bailout_blocks = t.bailout_blocks) :
    BenignExt s r := by
  obtain ⟨⟨d, hd, hben⟩, hbl⟩ := h
  exact ⟨⟨d, hi ▸ hd, hben⟩, hb ▸ hbl⟩

theorem Emits.of_benign {s t : CodeState} (h : BenignExt s t) : Emits s t := by
  obtain ⟨⟨d, hd, hben⟩, hbl⟩ := h
  refine ⟨⟨d, hd⟩, ?_, ?_, ⟨[], by simp [hbl], by simp⟩⟩
  · intro i ins hi hins hj
    have hlt : i < s.instructions.length + d.length := by
      have := (List.getElem?_eq_some.mp hins).1
      simpa [hd] using this
    have : (s.instructions ++ d)[i]? = d[i - s.instructions.length]? :=
      List.getElem?_append_right hi
    rw [hd] at hins
    rw [this] at hins
    have hmem : ins ∈ d := List.getElem?_mem hins
    have := (hben ins hmem).1
    rw [this] at hj
    exact absurd hj (by simp)
  · intro i ins hi hins
    rw [hd] at hins
    rw [List.getElem?_append_right hi] at hins
    exact (hben ins (List.getElem?_mem hins)).2

theorem Emits.refl (s : CodeState) : Emits s s := Emits.of_benign (BenignExt.self s)

theorem Emits.trans {s t r : CodeState} (h1 : Emits s t) (h2 : Emits t r) : Emits s r := by
  obtain ⟨d1, hd1⟩ := h1.instr_ext
  obtain ⟨d2, hd2⟩ := h2.instr_ext
  obtain ⟨bs1, hbs1, hbp1⟩ := h1.blocks_ext
  obtain ⟨bs2, hbs2, hbp2⟩ := h2.blocks_ext
  have hst : s.instructions.length ≤ t.instructions.length := h1.len_le
  have htr : t.instructions.length ≤ r.instructions.length := h2.len_le
  refine ⟨⟨d1 ++ d2, by simp [hd2, hd1]⟩, ?_, ?_, ?_⟩
  · intro i ins hi hins hj
    by_cases hcase : i < t.instructions.length
    · have : r.instructions[i]? = t.instructions[i]? := by
        rw [hd2]
        exact List.getElem?_append_left hcase
      rw [this] at hins
      have := h1.jumps_ok i ins hi hins hj
      omega
    · have := h2.jumps_ok i ins (by omega) hins hj
      omega
  · intro i ins hi hins
    by_cases hcase : i < t.instructions.length
    · have : r.instructions[i]? = t.instructions[i]? := by
        rw [hd2]
        exact List.getElem?_append_left hcase
      rw [this] at hins
      exact h1.no_fg i ins hi hins
    · exact h2.no_fg i ins (by omega) hins
  · refine ⟨bs1 ++ bs2, by simp [hbs2, hbs1], ?_⟩
    intro b hb
    rcases List.mem_append.mp hb with hm | hm
    · exact hbp1 b hm
    · exact hbp2 b hm

theorem Emits.push {s t : CodeState} (h : Emits s t) (op : OpCode) (x : Int) (n : Nat)
    (hj : (Instruction.mk op x n).isJump = true →
      (s.instructions.length : Int) ≤ (t.instructions.length : Int) + x ∧ x ≤ 1)
    (hf : op ≠ OpCode.FAIL_GUARD) :
    Emits s (insertInstruction t op x n) := by
  obtain ⟨d, hd⟩ := h.instr_ext
  have hlen : s.instructions.length ≤ t.instructions.length := h.len_le
  refine ⟨⟨d ++ [⟨op, x, n⟩], by simp [insertInstruction, hd]⟩, ?_, ?_, ?_⟩
  · intro i ins hi hins hjump
    by_cases hcase : i < t.instructions.length
    · have : (insertInstruction t op x n).instructions[i]? = t.instructions[i]? := by
        simp only [insertInstruction]
        exact List.getElem?_append_left hcase
      rw [this] at hins
      have := h.jumps_ok i ins hi hins hjump
      simp only [insertInstruction, List.length_append, List.length_cons, List.length_nil]
      omega
    · have hlt : i < t.instructions.length + 1 := by
        have := (List.getElem?_eq_some.mp hins).1
        simpa [insertInstruction] using this
      have hieq : i = t.instructions.length := by omega
      have : (insertInstruction t op x n).instructions[i]? = some ⟨op, x, n⟩ := by
        simp [insertInstruction, hieq]
      rw [this] at hins
      obtain rfl : ins = ⟨op, x, n⟩ := by simpa using hins.symm
      have := hj hjump
      simp only [insertInstruction, List.length_append, List.length_cons, List.length_nil]
      omega
  · intro i ins hi hins
    by_cases hcase : i < t.instructions.length
    · have : (insertInstruction t op x n).instructions[i]? = t.instructions[i]? := by
        simp only [insertInstruction]
        exact List.getElem?_append_left hcase
      rw [this] at hins
      exact h.no_fg i ins hi hins
    · have hlt : i < t.instructions.length + 1 := by
        have := (List.getElem?_eq_some.mp hins).1
        simpa [insertInstruction] using this
      have hieq : i = t.instructions.length := by omega
      have : (insertInstruction t op x n).instructions[i]? = some ⟨op, x, n⟩ := by
        simp [insertInstruction, hieq]
      rw [this] at hins
      obtain rfl : ins = ⟨op, x, n⟩ := by simpa using hins.symm
      exact hf
  · obtain ⟨bs, hbs, hbp⟩ := h.blocks_ext
    exact ⟨bs, by simpa [insertInstruction] using hbs, hbp⟩

theorem Emits.patch {s t : CodeState} (h : Emits s t) (p : Nat) (x : Int)
    (hp : s.instructions.length ≤ p)
    (h1 : (s.instructions.length : Int) ≤ (p : Int) + x)
    (h2 : (p : Int) + x ≤ (t.instructions.length : Int)) :
    Emits s { t with instructions := patchX t.instructions p x } := by
  obtain ⟨d, hd⟩ := h.instr_ext
  refine ⟨⟨patchX d (p - s.instructions.length) x, ?_⟩, ?_, ?_, ?_⟩
  · simp only [hd]
    exact patchX_append_right _ _ _ _ hp
  · intro i ins hi hins hj
    simp only [patchX_length]
    by_cases hcase : i = p
    · subst hcase
      by_cases hip : i < t.instructions.length
      · rw [patchX_getElem_eq _ _ _ hip] at hins
        rcases ht : t.instructions[i]? with _ | a
        · exact absurd (ht ▸ hins) (by simp)
        · rw [ht] at hins
          obtain rfl : ins = ⟨a.op, x, a.N⟩ := by simpa using hins.symm
          constructor <;> simpa
      · rw [patchX_oob _ _ _ (by omega)] at hins
        exact h.jumps_ok i ins hi hins hj
    · rw [patchX_getElem_ne _ _ _ _ hcase] at hins
      exact h.jumps_ok i ins hi hins hj
  · intro i ins hi hins
    by_cases hcase : i = p
    · subst hcase
      by_cases hip : i < t.instructions.length
      · rw [patchX_getElem_eq _ _ _ hip] at hins
        rcases ht : t.instructions[i]? with _ | a
        · exact absurd (ht ▸ hins) (by simp)
        · rw [ht] at hins
          obtain rfl : ins = ⟨a.op, x, a.N⟩ := by simpa using hins.symm
          exact h.no_fg i a hi ht
      · rw [patchX_oob _ _ _ (by omega)] at hins
        exact h.no_fg i ins hi hins
    · rw [patchX_getElem_ne _ _ _ _ hcase] at hins
      exact h.no_fg i ins hi hins
  · obtain ⟨bs, hbs, hbp⟩ := h.blocks_ext
    exact ⟨bs, hbs, hbp⟩

/-! ### Primitive emission facts -/

theorem benign_of_fields {s t : CodeState} (hi : t.instructions = s.instructions)
    (hb : t.bailout_blocks = s.bailout_blocks) : BenignExt s t :=
  BenignExt.congr_state (BenignExt.self s) hi hb

theorem emitStoreOutputs_benign (s : CodeState) (outs : List Nat) :
    BenignExt s (emitStoreOutputs s outs) := by
  unfold emitStoreOutputs
  split
  · exact BenignExt.self s
  · split
    · exact BenignExt.snoc (benign_of_fields rfl rfl) _ _ _ (by simp [Instruction.isJump]) (by simp)
    · exact BenignExt.snoc (benign_of_fields rfl rfl) _ _ _ (by simp [Instruction.isJump]) (by simp)

theorem emitConstant_benign (s : CodeState) (out val : Nat) (fn : Bool) :
    BenignExt s (emitConstant s out val fn) := by
  unfold emitConstant
  split
  · exact BenignExt.self s
  · exact benign_of_fields rfl rfl

theorem Emits.of_ext {s t : CodeState} (d : List Instruction) (bs : List BailoutBlock)
    (hd : t.instructions = s.instructions ++ d)
    (hj : ∀ ins ∈ d, (ins.isJump = true → ins.X = 0) ∧ ins.op ≠ OpCode.FAIL_GUARD)
    (hb : t.bailout_blocks = s.bailout_blocks ++ bs)
    (hbs : ∀ b ∈ bs, b.instructions ≠ [] ∧
      ∀ ins ∈ b.instructions, ins.isJump = false ∧ ins.op ≠ OpCode.FAIL_GUARD) :
    Emits s t := by
  refine ⟨⟨d, hd⟩, ?_, ?_, ⟨bs, hb, hbs⟩⟩
  · intro i ins hi hins hjump
    have hlt : i < t.instructions.length := (List.getElem?_eq_some.mp hins).1
    rw [hd] at hins
    rw [List.getElem?_append_right hi] at hins
    have hx := (hj ins (List.getElem?_mem hins)).1 hjump
    rw [hx]
    constructor <;> omega
  · intro i ins hi hins
    rw [hd] at hins
    rw [List.getElem?_append_right hi] at hins
    exact (hj ins (List.getElem?_mem hins)).2

theorem Node.wfB_of_simple (n : Node) (h : n.simple = true) : n.wfB = true := by
  cases n with
  | constant out v fn => rfl
  | opNode a b c d ins outs => simpa [Node.simple, Node.wfB] using h
  | ifNode a b c d => simp [Node.simple] at h
  | loopNode a b c => simp [Node.simple] at h
  | bailOutNode a b => simp [Node.simple] at h

/-! ### Definitional links between `emitNode` and the named lowering functions -/

theorem emitNode_eq_emitOperator (u : Nat → Nat) (s : CodeState) (vararg : Bool)
    (nm ov : String) (nec : Nat) (ins : List Operand) (outs : List Nat) :
    emitNode u s (Node.opNode vararg nm ov nec ins outs) =
      CodeImpl.emitOperator u s vararg nm ov ins := rfl

theorem emitNode_eq_emitIf (u : Nat → Nat) (s : CodeState) (ins : List Operand)
    (t e : Block) (outs : List Nat) :
    emitNode u s (Node.ifNode ins t e outs) = emitIf u s ins t e := rfl

theorem emitNode_eq_emitLoop (u : Nat → Nat) (s : CodeState) (ins : List Operand)
    (b : Block) (outs : List Nat) :
    emitNode u s (Node.loopNode ins b outs) = emitLoop u s ins b := rfl

theorem emitNode_eq_emitBailOut (u : Nat → Nat) (s : CodeState) (ins : List Operand)
    (outs : List Nat) :
    emitNode u s (Node.bailOutNode ins outs) = emitBailOut u s ins := by
  cases ins with
  | nil => rfl
  | cons a tl => cases tl <;> rfl

theorem emitNodesAtBlockLevel_cons (u : Nat → Nat) (s : CodeState) (n : Node) (ns : List Node) :
    emitNodesAtBlockLevel u s (n :: ns) =
      emitNodesAtBlockLevel u (emitNodeAtBlockLevel u s n) ns := by
  cases n <;> rfl

/-! ### The master emission invariant -/

mutual

theorem emitUse_emits (u : Nat → Nat) (s : CodeState) (drop : Bool) (o : Operand)
    (ho : o.simpleOk = true) : BenignExt s (emitUse u s drop o) := by
  cases o with
  | inlined n =>
    have hn : n.simple = true := by simpa [Operand.simpleOk] using ho
    have h1 := (emitNode_emits u s n).2 hn
    simp only [emitUse]
    split
    · exact h1.snoc _ _ _ (by simp [Instruction.isJump]) (by simp)
    · exact h1
  | ref v isConst =>
    simp only [emitUse]
    apply BenignExt.snoc (benign_of_fields rfl rfl)
    · simp only [Instruction.isJump]
      split_ifs <;> simp
    · split_ifs <;> simp

theorem emitLoadInputs_emits (u : Nat → Nat) (s : CodeState) (os : List Operand)
    (ho : operandsSimple os = true) : BenignExt s (emitLoadInputs u s os) := by
  cases os with
  | nil => exact BenignExt.self s
  | cons o os =>
    have h1 : o.simpleOk = true ∧ operandsSimple os = true := by
      simpa [operandsSimple, Bool.and_eq_true] using ho
    simp only [emitLoadInputs]
    exact (emitUse_emits u s false o h1.1).comp (emitLoadInputs_emits u _ os h1.2)

theorem emitNode_emits (u : Nat → Nat) (s : CodeState) (n : Node) :
    (n.wfB = true → Emits s (emitNode u s n)) ∧
    (n.simple = true → BenignExt s (emitNode u s n)) := by
  cases n with
  | constant out v fn =>
    exact ⟨fun _ => Emits.of_benign (emitConstant_benign s out v fn),
      fun _ => emitConstant_benign s out v fn⟩
  | opNode vararg nm ov nec ins outs =>
    have key : operandsSimple ins = true →
        BenignExt s (emitNode u s (Node.opNode vararg nm ov nec ins outs)) := by
      intro h
      have h1 := emitLoadInputs_emits u s ins h
      simp only [emitNode]
      cases vararg <;>
        exact BenignExt.congr_state
          (h1.snoc _ _ _ (by simp [Instruction.isJump]) (by simp)) rfl rfl
    exact ⟨fun hwf => Emits.of_benign (key (by simpa [Node.wfB] using hwf)),
      fun hs => key (by simpa [Node.simple] using hs)⟩
  | ifNode ins t e outs =>
    refine ⟨?_, by intro h; simp [Node.simple] at h⟩
    intro hwf
    obtain ⟨h1, ht, he⟩ : operandsSimple ins = true ∧ t.wfB = true ∧ e.wfB = true := by
      simpa [Node.wfB, Bool.and_eq_true, and_assoc] using hwf
    rw [emitNode_eq_emitIf]
    unfold emitIf
    dsimp only
    set A := emitLoadInputs u s ins with hA
    set B := insertInstruction A OpCode.JF 0 0 with hB
    set C := emitCodeForBlock u B t with hC
    set D := insertInstruction C OpCode.JMP 0 0 with hD
    have b0 : BenignExt s A := emitLoadInputs_emits u s ins h1
    have lA : s.instructions.length ≤ A.instructions.length := b0.length_le
    have lB : B.instructions.length = A.instructions.length + 1 := by
      simp [hB, insertInstruction]
    have eBC : Emits B C := emitCodeForBlock_emits u B t ht
    have lC : B.instructions.length ≤ C.instructions.length := eBC.len_le
    have lD : D.instructions.length = C.instructions.length + 1 := by
      simp [hD, insertInstruction]
    have e1 : Emits s B :=
      (Emits.of_benign b0).push OpCode.JF 0 0 (by intro _; constructor <;> omega) (by simp)
    have e3 : Emits s D :=
      (e1.trans eBC).push OpCode.JMP 0 0 (by intro _; constructor <;> omega) (by simp)
    have e4 : Emits s { D with instructions := patchX D.instructions A.instructions.length ((D.instructions.length : Int) - (A.instructions.length : Int)) } :=
      e3.patch _ _ lA (by omega) (by omega)
    set E := { D with instructions := patchX D.instructions A.instructions.length ((D.instructions.length : Int) - (A.instructions.length : Int)) } with hE
    set F := emitCodeForBlock u E e with hF
    have eEF : Emits E F := emitCodeForBlock_emits u E e he
    have lE : E.instructions.length = D.instructions.length := by
      simp [hE, patchX_length]
    have lF : E.instructions.length ≤ F.instructions.length := eEF.len_le
    have e5 : Emits s F := e4.trans eEF
    exact e5.patch (D.instructions.length - 1) ((F.instructions.length : Int) - ((D.instructions.length : Int) - 1)) (by omega) (by omega) (by omega)
  | loopNode ins b outs =>
    refine ⟨?_, by intro h; simp [Node.simple] at h⟩
    intro hwf
    obtain ⟨h1, hb⟩ : operandsSimple ins = true ∧ b.wfB = true := by
      simpa [Node.wfB, Bool.and_eq_true] using hwf
    rw [emitNode_eq_emitLoop]
    unfold emitLoop
    dsimp only
    set A := insertInstruction (insertConstant s 0).2 OpCode.LOADC ((insertConstant s 0).1 : Int) 0 with hA
    set B := emitLoadInputs u A ins with hB
    set C := insertInstruction B OpCode.LOOP 0 ins.length with hC
    set D := emitCodeForBlock u C b with hD
    set E := insertInstruction D OpCode.JMP ((B.instructions.length : Int) - (D.instructions.length : Int)) 0 with hE
    have b0 : BenignExt s A :=
      BenignExt.snoc (benign_of_fields rfl rfl) _ _ _ (by simp [Instruction.isJump]) (by simp)
    have bAB : BenignExt A B := emitLoadInputs_emits u A ins h1
    have lA : s.instructions.length ≤ A.instructions.length := b0.length_le
    have lB : A.instructions.length ≤ B.instructions.length := bAB.length_le
    have lC : C.instructions.length = B.instructions.length + 1 := by
      simp [hC, insertInstruction]
    have eCD : Emits C D := emitCodeForBlock_emits u C b hb
    have lD : C.instructions.length ≤ D.instructions.length := eCD.len_le
    have e1 : Emits s C :=
      (Emits.of_benign (b0.comp bAB)).push OpCode.LOOP 0 ins.length
        (by intro _; constructor <;> omega) (by simp)
    have e2 : Emits s E :=
      (e1.trans eCD).push OpCode.JMP ((B.instructions.length : Int) - (D.instructions.length : Int)) 0
        (by intro _; constructor <;> omega) (by simp)
    have lE : E.instructions.length = D.instructions.length + 1 := by
      simp [hE, insertInstruction]
    exact e2.patch B.instructions.length ((E.instructions.length : Int) - (B.instructions.length : Int)) (by omega) (by omega) (by omega)
  | bailOutNode ins outs =>
    refine ⟨?_, by intro h; simp [Node.simple] at h⟩
    intro hwf
    cases ins with
    | nil => simp [Node.wfB] at hwf
    | cons g tl =>
      cases tl with
      | nil => simp [Node.wfB] at hwf
      | cons guarded rest =>
        obtain ⟨hgd, hrest⟩ : guarded.simpleOk = true ∧ operandsSimple rest = true := by
          have := hwf
          simp only [Node.wfB, operandsSimple, Bool.and_eq_true] at this
          exact ⟨this.1.2.1, this.1.2.2⟩
        rw [emitNode_eq_emitBailOut]
        unfold emitBailOut emitGuard
        dsimp only
        set G := emitUse u s false guarded with hG
        obtain ⟨⟨d1, hd1, hben1⟩, hbl1⟩ := emitUse_emits u s false guarded hgd
        set S2 := insertInstruction (emitType G).2 OpCode.GUARD ((emitType G).1 : Int) 0 with hS2
        set S3 := insertInstruction S2 OpCode.JF 0 0 with hS3
        have hS3i : S3.instructions =
            s.instructions ++ (d1 ++ [⟨OpCode.GUARD, ((emitType G).1 : Int), 0⟩, ⟨OpCode.JF, 0, 0⟩]) := by
          simp only [hS3, hS2, insertInstruction, emitType]
          rw [show G.instructions = s.instructions ++ d1 from hd1]
          simp [List.append_assoc]
        set S4 := emitLoadInputs u S3 rest with hS4
        obtain ⟨⟨d2, hd2, hben2⟩, hbl4⟩ := emitLoadInputs_emits u S3 rest hrest
        set S5 := insertInstruction S4 OpCode.TAIL_CALL (S4.function_table : Int) 0 with hS5
        have hS5i : S5.instructions =
            S3.instructions ++ (d2 ++ [⟨OpCode.TAIL_CALL, (S4.function_table : Int), 0⟩]) := by
          simp only [hS5, insertInstruction]
          rw [show S4.instructions = S3.instructions ++ d2 from hd2]
          simp [List.append_assoc]
        have hjf : S3.instructions.length - 1 + 1 = S3.instructions.length := by
          rw [hS3i]
          simp
          omega
        apply Emits.of_ext
          (d1 ++ [⟨OpCode.GUARD, ((emitType G).1 : Int), 0⟩, ⟨OpCode.JF, 0, 0⟩])
          [⟨S3.instructions.length - 1, d2 ++ [⟨OpCode.TAIL_CALL, (S4.function_table : Int), 0⟩]⟩]
        · show (createBailoutBlock _ _).instructions = _
          simp only [createBailoutBlock]
          rw [show ({ S5 with function_table := S5.function_table + 1, bailout_functions := S5.bailout_functions + 1 } : CodeState).instructions = S5.instructions from rfl]
          rw [hS5i, hjf, List.take_left, hS3i]
        · intro ins hins
          rcases List.mem_append.mp hins with hm | hm
          · exact ⟨fun hcontra => absurd hcontra (by simp [(hben1 ins hm).1]),
              (hben1 ins hm).2⟩
          · simp only [List.mem_cons, List.not_mem_nil, or_false] at hm
            rcases hm with rfl | rfl
            · exact ⟨by simp [Instruction.isJump], by simp⟩
            · exact ⟨fun _ => rfl, by simp⟩
        · show (createBailoutBlock _ _).bailout_blocks = _
          simp only [createBailoutBlock]
          rw [show ({ S5 with function_table := S5.function_table + 1, bailout_functions := S5.bailout_functions + 1 } : CodeState).bailout_blocks = S5.bailout_blocks from rfl]
          rw [show S5.bailout_blocks = S4.bailout_blocks from rfl, hbl4]
          rw [show S3.bailout_blocks = s.bailout_blocks from hbl1]
          rw [show ({ S5 with function_table := S5.function_table + 1, bailout_functions := S5.bailout_functions + 1 } : CodeState).instructions = S5.instructions from rfl]
          rw [hS5i, hjf, List.drop_left]
        · intro b hbmem
          simp only [List.mem_singleton] at hbmem
          subst hbmem
          refine ⟨by simp, ?_⟩
          intro ins hins
          rcases List.mem_append.mp hins with hm | hm
          · exact hben2 ins hm
          · simp only [List.mem_singleton] at hm
            subst hm
            exact ⟨by simp [Instruction.isJump], by simp⟩

theorem emitNodesAtBlockLevel_emits (u : Nat → Nat) (s : CodeState) (ns : List Node)
    (h : nodesWf ns = true) : Emits s (emitNodesAtBlockLevel u s ns) := by
  cases ns with
  | nil => exact Emits.refl s
  | cons n ns =>
    have h1 : n.wfB = true ∧ nodesWf ns = true := by
      simpa [nodesWf, Bool.and_eq_true] using h
    have hn : Emits s (emitNodeAtBlockLevel u s n) := by
      unfold emitNodeAtBlockLevel
      cases n with
      | constant out v fn =>
        exact Emits.of_benign (emitConstant_benign s out v fn)
      | opNode vararg nm ov nec ins outs =>
        exact ((emitNode_emits u s _).1 h1.1).trans
          (Emits.of_benign (emitStoreOutputs_benign _ _))
      | ifNode ins t e outs =>
        exact ((emitNode_emits u s _).1 h1.1).trans
          (Emits.of_benign (emitStoreOutputs_benign _ _))
      | loopNode ins b outs =>
        exact ((emitNode_emits u s _).1 h1.1).trans
          (Emits.of_benign (emitStoreOutputs_benign _ _))
      | bailOutNode ins outs =>
        exact ((emitNode_emits u s _).1 h1.1).trans
          (Emits.of_benign (emitStoreOutputs_benign _ _))
    rw [emitNodesAtBlockLevel_cons]
    exact hn.trans (emitNodesAtBlockLevel_emits u _ ns h1.2)

theorem emitCodeForBlock_emits (u : Nat → Nat) (s : CodeState) (b : Block)
    (h : b.wfB = true) : Emits s (emitCodeForBlock u s b) := by
  cases b with
  | mk params ns rs =>
    have h1 : nodesWf ns = true ∧ operandsSimple rs = true := by
      simpa [Block.wfB, Bool.and_eq_true] using h
    simp only [emitCodeForBlock]
    exact (Emits.of_benign (emitStoreOutputs_benign s params)).trans
      ((emitNodesAtBlockLevel_emits u _ ns h1.1).trans
        (Emits.of_benign (emitLoadInputs_emits u _ rs h1.2)))

end

/-! ### Finalization: insertBailoutBlocks preserves and completes jump validity -/

theorem patchX_map_op (l : List Instruction) (i : Nat) (x : Int) :
    (patchX l i x).map Instruction.op = l.map Instruction.op := by
  induction l generalizing i with
  | nil => rfl
  | cons a l ih =>
    cases i with
    | zero => rfl
    | succ i => simp [patchX, ih]

theorem insertBailoutBlocksAux_jump_valid (bs : List BailoutBlock) (instrs : List Instruction)
    (hv : ∀ (i : Nat) (ins : Instruction), instrs[i]? = some ins → ins.isJump = true →
      0 ≤ (i : Int) + ins.X ∧ (i : Int) + ins.X < (instrs.length : Int))
    (hb : ∀ b ∈ bs, b.instructions ≠ [] ∧ ∀ ins ∈ b.instructions, ins.isJump = false) :
    JumpValid (insertBailoutBlocksAux instrs bs) := by
  induction bs generalizing instrs with
  | nil => exact hv
  | cons b bs ih =>
    simp only [insertBailoutBlocksAux]
    apply ih
    · intro i ins hins hj
      have hblen : 1 ≤ b.instructions.length := by
        have := (hb b (List.mem_cons_self b bs)).1
        cases hbi : b.instructions with
        | nil => exact absurd hbi this
        | cons x xs => simp [hbi]
      have hlen : (patchX instrs b.jf_instruction_index
          ((instrs.length : Int) - (b.jf_instruction_index : Int)) ++ b.instructions).length =
          instrs.length + b.instructions.length := by
        simp [patchX_length]
      by_cases hlow : i < instrs.length
      · have hsplit : (patchX instrs b.jf_instruction_index
            ((instrs.length : Int) - (b.jf_instruction_index : Int)) ++ b.instructions)[i]? =
            (patchX instrs b.jf_instruction_index
              ((instrs.length : Int) - (b.jf_instruction_index : Int)))[i]? :=
          List.getElem?_append_left (by rw [patchX_length]; exact hlow)
        rw [hsplit] at hins
        by_cases hijf : i = b.jf_instruction_index
        · rw [hijf] at hins
          rw [patchX_getElem_eq _ _ _ (hijf ▸ hlow)] at hins
          rcases ha : instrs[b.jf_instruction_index]? with _ | a
          · exact absurd (ha ▸ hins) (by simp)
          · rw [ha] at hins
            obtain rfl : ins =
                ⟨a.op, (instrs.length : Int) - (b.jf_instruction_index : Int), a.N⟩ := by
              simpa using hins.symm
            rw [hlen]
            refine ⟨by push_cast ; omega, by push_cast ; omega⟩
        · rw [patchX_getElem_ne _ _ _ _ hijf] at hins
          have := hv i ins hins hj
          rw [hlen]
          constructor <;> (push_cast ; omega)
      · have hsplit : (patchX instrs b.jf_instruction_index
            ((instrs.length : Int) - (b.jf_instruction_index : Int)) ++ b.instructions)[i]? =
            b.instructions[i - instrs.length]? := by
          have h1 : (patchX instrs b.jf_instruction_index
              ((instrs.length : Int) - (b.jf_instruction_index : Int))).length ≤ i := by
            rw [patchX_length]
            omega
          rw [List.getElem?_append_right h1, patchX_length]
        rw [hsplit] at hins
        have hmem := List.getElem?_mem hins
        have := (hb b (List.mem_cons_self b bs)).2 ins hmem
        rw [this] at hj
        exact absurd hj (by simp)
    · intro b2 hb2
      exact hb b2 (List.mem_cons_of_mem b hb2)

theorem insertBailoutBlocksAux_fg_free (bs : List BailoutBlock) (instrs : List Instruction)
    (h1 : ∀ ins ∈ instrs, ins.op ≠ OpCode.FAIL_GUARD)
    (h2 : ∀ b ∈ bs, ∀ ins ∈ b.instructions, ins.op ≠ OpCode.FAIL_GUARD) :
    ∀ ins ∈ insertBailoutBlocksAux instrs bs, ins.op ≠ OpCode.FAIL_GUARD := by
  induction bs generalizing instrs with
  | nil => exact h1
  | cons b bs ih =>
    simp only [insertBailoutBlocksAux]
    apply ih
    · intro ins hins
      rcases List.mem_append.mp hins with hm | hm
      · have : ins.op ∈ instrs.map Instruction.op := by
          rw [← patchX_map_op instrs b.jf_instruction_index
            ((instrs.length : Int) - (b.jf_instruction_index : Int))]
          exact List.mem_map_of_mem Instruction.op hm
        obtain ⟨a, ha, hop⟩ := List.mem_map.mp this
        rw [← hop]
        exact h1 a ha
      · exact h2 b (List.mem_cons_self b bs) ins hm
    · intro b2 hb2
      exact h2 b2 (List.mem_cons_of_mem b hb2)

theorem run_instructions_eq (g : Block) :
    (CodeImpl.run g).instructions =
      insertBailoutBlocksAux
        (insertInstruction (emitCodeForBlock (totalUses g) initState g) OpCode.RET 0 0).instructions
        (insertInstruction (emitCodeForBlock (totalUses g) initState g) OpCode.RET 0 0).bailout_blocks := rfl

theorem run_strict_valid (g : Block) (hwf : g.wfB = true) :
    ∀ (i : Nat) (ins : Instruction),
      (insertInstruction (emitCodeForBlock (totalUses g) initState g) OpCode.RET 0 0).instructions[i]? = some ins →
      ins.isJump = true →
      0 ≤ (i : Int) + ins.X ∧ (i : Int) + ins.X <
        ((insertInstruction (emitCodeForBlock (totalUses g) initState g) OpCode.RET 0 0).instructions.length : Int) := by
  intro i ins hins hj
  set u := totalUses g
  set s1 := emitCodeForBlock u initState g with hs1
  have e1 : Emits initState s1 := emitCodeForBlock_emits u initState g hwf
  have hlen2 : (insertInstruction s1 OpCode.RET 0 0).instructions.length = s1.instructions.length + 1 := by
    simp [insertInstruction]
  by_cases hc : i < s1.instructions.length
  · have heq : (insertInstruction s1 OpCode.RET 0 0).instructions[i]? = s1.instructions[i]? := by
      simp only [insertInstruction]
      exact List.getElem?_append_left hc
    rw [heq] at hins
    have := e1.jumps_ok i ins (by simp [initState]) hins hj
    rw [hlen2]
    simp only [initState] at this
    constructor <;> (push_cast ; omega)
  · have hlt : i < s1.instructions.length + 1 := by
      have := (List.getElem?_eq_some.mp hins).1
      rw [hlen2] at this
      exact this
    have hieq : i = s1.instructions.length := by omega
    have heq : (insertInstruction s1 OpCode.RET 0 0).instructions[i]? =
        some ⟨OpCode.RET, 0, 0⟩ := by
      simp [insertInstruction, hieq]
    rw [heq] at hins
    obtain rfl : ins = ⟨OpCode.RET, 0, 0⟩ := by simpa using hins.symm
    exact absurd hj (by simp [Instruction.isJump])

theorem run_blocks_benign (g : Block) (hwf : g.wfB = true) :
    ∀ b ∈ (insertInstruction (emitCodeForBlock (totalUses g) initState g) OpCode.RET 0 0).bailout_blocks,
      b.instructions ≠ [] ∧
        ∀ ins ∈ b.instructions, ins.isJump = false ∧ ins.op ≠ OpCode.FAIL_GUARD := by
  have e1 : Emits initState (emitCodeForBlock (totalUses g) initState g) :=
    emitCodeForBlock_emits (totalUses g) initState g hwf
  obtain ⟨bs, hbs, hbp⟩ := e1.blocks_ext
  intro b hbmem
  have hmem2 : b ∈ bs := by
    have : (insertInstruction (emitCodeForBlock (totalUses g) initState g) OpCode.RET 0 0).bailout_blocks =
        (emitCodeForBlock (totalUses g) initState g).bailout_blocks := rfl
    rw [this, hbs] at hbmem
    simpa [initState] using hbmem
  exact hbp b hmem2

/-- C1: after compilation completes (CodeImpl::run: emitting the root block,
the final RET, and insertBailoutBlocks), every JF, JMP or LOOP instruction at
index `i` with operand `X` has a valid jump target:
`0 ≤ i + X < instructions_.size()`. -/
theorem c1_jump_validity (g : Block) (hwf : g.wfB = true) :
    JumpValid (CodeImpl.run g).instructions := by
  rw [run_instructions_eq]
  apply insertBailoutBlocksAux_jump_valid _ _ (run_strict_valid g hwf)
  intro b hb
  exact ⟨(run_blocks_benign g hwf b hb).1, fun ins hins => ((run_blocks_benign g hwf b hb).2 ins hins).1⟩

/-- Witness for C1: the single-BailOut example graph is well-formed and its
compiled program has only valid jump targets. -/
theorem c1_jump_validity_witness :
    Block.wfB gBailEx = true ∧ JumpValid (CodeImpl.run gBailEx).instructions :=
  ⟨by decide, c1_jump_validity gBailEx (by decide)⟩

/-! ### Claim C3: request_bailout -/

theorem requestBailoutAux_idem (l : List Instruction) (k : Nat) :
    requestBailoutAux (requestBailoutAux l k) k = requestBailoutAux l k := by
  induction l generalizing k with
  | nil => rfl
  | cons ins rest ih =>
    by_cases hg : ins.op = OpCode.GUARD ∨ ins.op = OpCode.FAIL_GUARD
    · by_cases hk : k = 0
      · subst hk
        simp [requestBailoutAux, hg]
      · simp [requestBailoutAux, hg, hk, ih]
    · simp [requestBailoutAux, hg, ih]

theorem countGuards_cons (a : Instruction) (rest : List Instruction) :
    countGuards (a :: rest) =
      (if a.op = OpCode.GUARD then 1 else 0) + countGuards rest := by
  by_cases hg : a.op = OpCode.GUARD <;> (simp [countGuards, hg] ; try omega)

theorem requestBailoutAux_eq_set (l : List Instruction) (k : Nat)
    (hfg : ∀ ins ∈ l, ins.op ≠ OpCode.FAIL_GUARD)
    (hk : k < countGuards l) :
    ∃ (i : Nat) (ins : Instruction), guardIdx l k = some i ∧ l[i]? = some ins ∧
      ins.op = OpCode.GUARD ∧
      requestBailoutAux l k = l.set i ⟨OpCode.FAIL_GUARD, ins.X, ins.N⟩ := by
  induction l generalizing k with
  | nil => simp [countGuards] at hk
  | cons a rest ih =>
    have hfgrest : ∀ ins ∈ rest, ins.op ≠ OpCode.FAIL_GUARD :=
      fun ins hins => hfg ins (List.mem_cons_of_mem a hins)
    by_cases hg : a.op = OpCode.GUARD
    · by_cases hk0 : k = 0
      · subst hk0
        exact ⟨0, a, by simp [guardIdx, hg], by simp, hg,
          by simp [requestBailoutAux, hg]⟩
      · have hk2 : k - 1 < countGuards rest := by
          rw [countGuards_cons, if_pos hg] at hk
          omega
        obtain ⟨i, ins, h1, h2, h3, h4⟩ := ih (k - 1) hfgrest hk2
        refine ⟨i + 1, ins, ?_, by simpa using h2, h3, ?_⟩
        · simp [guardIdx, hg, hk0, h1]
        · simp [requestBailoutAux, hg, hk0, h4]
    · have hnfg : a.op ≠ OpCode.FAIL_GUARD := hfg a (List.mem_cons_self a rest)
      have hk2 : k < countGuards rest := by
        rw [countGuards_cons, if_neg hg] at hk
        omega
      obtain ⟨i, ins, h1, h2, h3, h4⟩ := ih k hfgrest hk2
      refine ⟨i + 1, ins, ?_, by simpa using h2, h3, ?_⟩
      · simp [guardIdx, hg, h1]
      · have hgi : ¬ (a.op = OpCode.GUARD ∨ a.op = OpCode.FAIL_GUARD) := by
          simp [hg, hnfg]
        simp [requestBailoutAux, hgi, h4]

theorem run_pre_fg_free (g : Block) (hwf : g.wfB = true) :
    ∀ ins ∈ (insertInstruction (emitCodeForBlock (totalUses g) initState g) OpCode.RET 0 0).instructions,
      ins.op ≠ OpCode.FAIL_GUARD := by
  intro ins hins
  obtain ⟨i, hlt, hi⟩ := List.getElem_of_mem hins
  have hi2 : (insertInstruction (emitCodeForBlock (totalUses g) initState g) OpCode.RET 0 0).instructions[i]? = some ins := by
    rw [List.getElem?_eq_getElem hlt, hi]
  set s1 := emitCodeForBlock (totalUses g) initState g with hs1
  have e1 : Emits initState s1 := emitCodeForBlock_emits (totalUses g) initState g hwf
  by_cases hc : i < s1.instructions.length
  · have heq : (insertInstruction s1 OpCode.RET 0 0).instructions[i]? = s1.instructions[i]? := by
      simp only [insertInstruction]
      exact List.getElem?_append_left hc
    rw [heq] at hi2
    exact e1.no_fg i ins (by simp [initState]) hi2
  · have hlen2 : (insertInstruction s1 OpCode.RET 0 0).instructions.length =
        s1.instructions.length + 1 := by
      simp [insertInstruction]
    have hieq : i = s1.instructions.length := by
      rw [hlen2] at hlt
      omega
    have heq : (insertInstruction s1 OpCode.RET 0 0).instructions[i]? =
        some ⟨OpCode.RET, 0, 0⟩ := by
      simp [insertInstruction, hieq]
    rw [heq] at hi2
    obtain rfl : ins = ⟨OpCode.RET, 0, 0⟩ := by simpa using hi2.symm
    simp

theorem run_fg_free (g : Block) (hwf : g.wfB = true) :
    ∀ ins ∈ (CodeImpl.run g).instructions, ins.op ≠ OpCode.FAIL_GUARD := by
  rw [run_instructions_eq]
  apply insertBailoutBlocksAux_fg_free
  · exact run_pre_fg_free g hwf
  · intro b hb ins hins
    exact ((run_blocks_benign g hwf b hb).2 ins hins).2

/-- C3: on a finalized program (which contains no FAIL_GUARD) with at least
`k + 1` GUARD instructions, request_bailout(k) rewrites exactly the `k`-th
GUARD (in instruction order) into FAIL_GUARD, keeping its X and N and every
other instruction unchanged; and request_bailout is idempotent per index on
any instruction list. -/
theorem c3_request_bailout (g : Block) (k : Nat) (hwf : g.wfB = true)
    (hk : k + 1 ≤ countGuards (CodeImpl.run g).instructions) :
    (∃ (i : Nat) (ins : Instruction),
      guardIdx (CodeImpl.run g).instructions k = some i ∧
      (CodeImpl.run g).instructions[i]? = some ins ∧ ins.op = OpCode.GUARD ∧
      (request_bailout (CodeImpl.run g) k).instructions =
        (CodeImpl.run g).instructions.set i ⟨OpCode.FAIL_GUARD, ins.X, ins.N⟩) ∧
    ∀ (l : List Instruction) (j : Nat),
      requestBailoutAux (requestBailoutAux l j) j = requestBailoutAux l j := by
  refine ⟨?_, fun l j => requestBailoutAux_idem l j⟩
  exact requestBailoutAux_eq_set (CodeImpl.run g).instructions k (run_fg_free g hwf) (by omega)

/-- Witness for C3: on the compiled single-GUARD example graph,
request_bailout(0) rewrites its only GUARD. -/
theorem c3_request_bailout_witness :
    (Block.wfB gBailEx = true ∧ 0 + 1 ≤ countGuards (CodeImpl.run gBailEx).instructions) ∧
    ((∃ (i : Nat) (ins : Instruction),
      guardIdx (CodeImpl.run gBailEx).instructions 0 = some i ∧
      (CodeImpl.run gBailEx).instructions[i]? = some ins ∧ ins.op = OpCode.GUARD ∧
      (request_bailout (CodeImpl.run gBailEx) 0).instructions =
        (CodeImpl.run gBailEx).instructions.set i ⟨OpCode.FAIL_GUARD, ins.X, ins.N⟩) ∧
    ∀ (l : List Instruction) (j : Nat),
      requestBailoutAux (requestBailoutAux l j) j = requestBailoutAux l j) :=
  ⟨⟨by decide, by decide⟩, c3_request_bailout gBailEx 0 (by decide) (by decide)⟩

/-! ### Claim C6: the MOVE / LOAD decision of emitUse -/

/-- C6: for a registered (non-inlined) value `v` not defined by a Constant
node, consumed with drop = false, emitUse appends exactly one instruction
addressing the value's register; it is a MOVE exactly when the incremented
per-value use counter reaches the value's total static use count `u v`
(`input->uses().size()`), and a LOAD otherwise; the counter of `v` is
incremented and no other counter changes. -/
theorem c6_emitUse_move_load (u : Nat → Nat) (s : CodeState) (v : Nat) :
    ∃ opc : OpCode,
      (emitUse u s false (Operand.ref v false)).instructions =
        s.instructions ++ [⟨opc, (registerFor s v : Int), 0⟩] ∧
      (opc = OpCode.MOVE ↔ u v = (alookup s.use_count v).getD 0 + 1) ∧
      (opc = OpCode.LOAD ↔ u v ≠ (alookup s.use_count v).getD 0 + 1) ∧
      alookup (emitUse u s false (Operand.ref v false)).use_count v =
        some ((alookup s.use_count v).getD 0 + 1) ∧
      ∀ w, w ≠ v → alookup (emitUse u s false (Operand.ref v false)).use_count w =
        alookup s.use_count w := by
  by_cases h : u v = (alookup s.use_count v).getD 0 + 1
  · refine ⟨OpCode.MOVE, ?_, by simp [h], by simp [h], ?_, ?_⟩
    · simp [emitUse, insertInstruction, h]
    · simp [emitUse, alookup]
    · intro w hw
      simp [emitUse, alookup, Ne.symm hw]
  · refine ⟨OpCode.LOAD, ?_, by simp [h], by simp [h], ?_, ?_⟩
    · simp [emitUse, insertInstruction, h]
    · simp [emitUse, alookup]
    · intro w hw
      simp [emitUse, alookup, Ne.symm hw]

/-- Witness for C6 at a concrete value and state. -/
theorem c6_emitUse_move_load_witness :
    ∃ opc : OpCode,
      (emitUse (fun _ => 1) initState false (Operand.ref 5 false)).instructions =
        initState.instructions ++ [⟨opc, (registerFor initState 5 : Int), 0⟩] ∧
      (opc = OpCode.MOVE ↔ (fun _ => 1) 5 = (alookup initState.use_count 5).getD 0 + 1) ∧
      (opc = OpCode.LOAD ↔ (fun _ => 1) 5 ≠ (alookup initState.use_count 5).getD 0 + 1) ∧
      alookup (emitUse (fun _ => 1) initState false (Operand.ref 5 false)).use_count 5 =
        some ((alookup initState.use_count 5).getD 0 + 1) ∧
      ∀ w, w ≠ 5 → alookup (emitUse (fun _ => 1) initState false (Operand.ref 5 false)).use_count w =
        alookup initState.use_count w :=
  c6_emitUse_move_load (fun _ => 1) initState 5

/-! ### Claim C7: register allocation -/

theorem allocRegsList_spec (vs : List Nat) (m : List (Nat × Nat)) (rs : Nat) :
    (allocRegsList m rs vs).2 = rs + vs.length ∧
    (∀ w, w ∉ vs → alookup (allocRegsList m rs vs).1 w = alookup m w) ∧
    (vs.Nodup → ∀ i, (hi : i < vs.length) →
      alookup (allocRegsList m rs vs).1 (vs.get ⟨i, hi⟩) = some (rs + 1 + i)) := by
  induction vs generalizing m rs with
  | nil => exact ⟨rfl, fun w _ => rfl, fun _ i hi => by simp at hi⟩
  | cons v vs ih =>
    obtain ⟨ih1, ih2, ih3⟩ := ih ((v, rs + 1) :: m) (rs + 1)
    refine ⟨by simpa [allocRegsList, ih1] using by omega, ?_, ?_⟩
    · intro w hw
      have hwv : v ≠ w := fun hcontra => hw (hcontra ▸ List.mem_cons_self v vs)
      have hwvs : w ∉ vs := fun hcontra => hw (List.mem_cons_of_mem v hcontra)
      rw [show allocRegsList m rs (v :: vs) = allocRegsList ((v, rs + 1) :: m) (rs + 1) vs from rfl]
      rw [ih2 w hwvs]
      simp [alookup, hwv]
    · intro hnd i hi
      have hvnotin : v ∉ vs := (List.nodup_cons.mp hnd).1
      have hndvs : vs.Nodup := (List.nodup_cons.mp hnd).2
      rw [show allocRegsList m rs (v :: vs) = allocRegsList ((v, rs + 1) :: m) (rs + 1) vs from rfl]
      cases i with
      | zero =>
        rw [show (v :: vs).get ⟨0, hi⟩ = v from rfl]
        rw [ih2 v hvnotin]
        simp [alookup]
      | succ i =>
        have hi2 : i < vs.length := by simpa using hi
        rw [show (v :: vs).get ⟨i + 1, hi⟩ = vs.get ⟨i, hi2⟩ from rfl]
        rw [ih3 hndvs i hi2]
        congr 1
        omega

/-- C7 (amended): allocRegs returns the first of the consecutive fresh
register indices register_size_+1 .. register_size_+|vs| assigned to the
given values; every assigned index is ≥ 1; values outside `vs` keep their
bindings; and the indices assigned by a subsequent allocRegs call are disjoint
from this call's (no register index is ever reused within one compilation).
Injectivity of the full value_to_reg_ map fails, because emitConstant binds
constant outputs to constant-table slots in the same map (see the
counterexample). -/
theorem c7_allocRegs (s : CodeState) (vs : List Nat) (hnd : vs.Nodup) :
    (allocRegs s vs).1 = s.register_size + 1 ∧
    (allocRegs s vs).2.register_size = s.register_size + vs.length ∧
    (∀ i, (hi : i < vs.length) →
      alookup (allocRegs s vs).2.value_to_reg (vs.get ⟨i, hi⟩) =
        some (s.register_size + 1 + i)) ∧
    (∀ i, 1 ≤ s.register_size + 1 + i) ∧
    (∀ w, w ∉ vs → alookup (allocRegs s vs).2.value_to_reg w = alookup s.value_to_reg w) ∧
    ∀ (vs2 : List Nat) (j i : Nat), i < vs.length →
      (allocRegs (allocRegs s vs).2 vs2).1 + j ≠ s.register_size + 1 + i := by
  obtain ⟨h1, h2, h3⟩ := allocRegsList_spec vs s.value_to_reg s.register_size
  refine ⟨rfl, by simpa [allocRegs] using h1, fun i hi => h3 hnd i hi, fun i => by omega,
    fun w hw => h2 w hw, ?_⟩
  intro vs2 j i hi
  have : (allocRegs (allocRegs s vs).2 vs2).1 = (allocRegs s vs).2.register_size + 1 := rfl
  rw [this]
  have h4 : (allocRegs s vs).2.register_size = s.register_size + vs.length := by
    simpa [allocRegs] using h1
  omega

/-- Witness for C7 (amended) at a concrete state and value lists. -/
theorem c7_allocRegs_witness :
    List.Nodup [7, 8] ∧
    ((allocRegs initState [7, 8]).1 = initState.register_size + 1 ∧
    (allocRegs initState [7, 8]).2.register_size = initState.register_size + [7, 8].length ∧
    (∀ i, (hi : i < [7, 8].length) →
      alookup (allocRegs initState [7, 8]).2.value_to_reg ([7, 8].get ⟨i, hi⟩) =
        some (initState.register_size + 1 + i)) ∧
    (∀ i, 1 ≤ initState.register_size + 1 + i) ∧
    (∀ w, w ∉ [7, 8] → alookup (allocRegs initState [7, 8]).2.value_to_reg w =
      alookup initState.value_to_reg w) ∧
    ∀ (vs2 : List Nat) (j i : Nat), i < [7, 8].length →
      (allocRegs (allocRegs initState [7, 8]).2 vs2).1 + j ≠ initState.register_size + 1 + i) :=
  ⟨by decide, c7_allocRegs initState [7, 8] (by decide)⟩

/-- C7 counterexample: on the compiled `gConstEx`, `value_to_reg_` is not
injective: the second constant's output (value 2) is bound to constant-table
slot 1 while the stored operator output (value 3) is bound to register 1. -/
theorem c7_counterexample :
    ¬ (∀ (v w r : Nat), alookup (CodeImpl.run gConstEx).value_to_reg v = some r →
        alookup (CodeImpl.run gConstEx).value_to_reg w = some r → v = w) := by
  intro h
  have h2 : alookup (CodeImpl.run gConstEx).value_to_reg 2 = some 1 := by decide
  have h3 : alookup (CodeImpl.run gConstEx).value_to_reg 3 = some 1 := by decide
  exact absurd (h 2 3 1 h2 h3) (by decide)

/-! ### Claim C8: constant lowering -/

/-- C8 (amended): lowering a non-FunctionType Constant node appends no
instruction; the constant's value is appended to the constant table and the
node's output value is bound in value_to_reg_ to that slot; a FunctionType
Constant is skipped entirely (no table entry, no binding). -/
theorem c8_emitConstant (u : Nat → Nat) (s : CodeState) (out val : Nat) :
    emitNodeAtBlockLevel u s (Node.constant out val false) =
      { s with constant_table := s.constant_table ++ [val],
               value_to_reg := (out, s.constant_table.length) :: s.value_to_reg } ∧
    (emitNodeAtBlockLevel u s (Node.constant out val false)).instructions = s.instructions ∧
    emitNode u s (Node.constant out val false) =
      emitNodeAtBlockLevel u s (Node.constant out val false) ∧
    emitNodeAtBlockLevel u s (Node.constant out val true) = s := by
  refine ⟨?_, ?_, rfl, ?_⟩ <;> simp [emitNodeAtBlockLevel, emitConstant, insertConstant]

/-- C8 counterexample: a FunctionType Constant node is lowered to nothing at
all: no instruction, but also no constant-table entry and no binding of its
output value, contradicting the unconditional claim. -/
theorem c8_counterexample :
    (¬ ∃ slot, alookup (emitNodeAtBlockLevel (fun _ => 0) initState
        (Node.constant 1 5 true)).value_to_reg 1 = some slot) ∧
    (emitNodeAtBlockLevel (fun _ => 0) initState (Node.constant 1 5 true)).constant_table = [] ∧
    (emitNodeAtBlockLevel (fun _ => 0) initState (Node.constant 1 5 true)).instructions = [] := by
  refine ⟨?_, by decide, by decide⟩
  rintro ⟨slot, h⟩
  have hn : alookup (emitNodeAtBlockLevel (fun _ => 0) initState
      (Node.constant 1 5 true)).value_to_reg 1 = none := by decide
  rw [hn] at h
  cases h

/-! ### Claims C4 and C5: If and Loop lowering shapes -/

theorem patchX_cons_zero (a : Instruction) (l : List Instruction) (x : Int) :
    patchX (a :: l) 0 x = ⟨a.op, x, a.N⟩ :: l := rfl

theorem patchX_start (A R : List Instruction) (a : Instruction) (x : Int) :
    patchX (A ++ a :: R) A.length x = A ++ ⟨a.op, x, a.N⟩ :: R := by
  rw [patchX_append_right _ _ _ _ (Nat.le_refl _), Nat.sub_self, patchX_cons_zero]

theorem emitIf_decompose (u : Nat → Nat) (s : CodeState) (ins : List Operand) (t e : Block) :
    emitIf u s ins t e =
      { emitCodeForBlock u (emitIfElseEntry u s ins t) e with
        instructions := patchX (emitCodeForBlock u (emitIfElseEntry u s ins t) e).instructions
          ((emitIfElseEntry u s ins t).instructions.length - 1)
          (((emitCodeForBlock u (emitIfElseEntry u s ins t) e).instructions.length : Int) -
            (((emitIfElseEntry u s ins t).instructions.length : Int) - 1)) } := by
  unfold emitIf emitIfElseEntry
  dsimp only
  rw [patchX_length]

/-- C4 (amended): emitting an If node produces the conditional-input loads, a
JF with a placeholder offset, the true block, a JMP with a placeholder offset,
the false block, with both offsets backpatched afterwards; the finalized JF
offset equals the true branch's instruction count plus TWO (stepping over the
JF itself, the true branch, and the JMP, landing on the first instruction of
the false region), and the finalized JMP offset equals the false branch's
instruction count plus one. -/
theorem c4_emitIf_offsets (u : Nat → Nat) (s : CodeState) (ins : List Operand)
    (t e : Block) (outs : List Nat) (ht : t.wfB = true) (he : e.wfB = true) :
    ∃ dt de : List Instruction,
      emitNode u s (Node.ifNode ins t e outs) = emitIf u s ins t e ∧
      (emitCodeForBlock u (insertInstruction (emitLoadInputs u s ins) OpCode.JF 0 0) t).instructions =
        (insertInstruction (emitLoadInputs u s ins) OpCode.JF 0 0).instructions ++ dt ∧
      (emitCodeForBlock u (emitIfElseEntry u s ins t) e).instructions =
        (emitIfElseEntry u s ins t).instructions ++ de ∧
      (emitIf u s ins t e).instructions =
        (emitLoadInputs u s ins).instructions ++
          ⟨OpCode.JF, (dt.length : Int) + 2, 0⟩ ::
            (dt ++ ⟨OpCode.JMP, (de.length : Int) + 1, 0⟩ :: de) := by
  obtain ⟨dt, hdt⟩ := (emitCodeForBlock_emits u
    (insertInstruction (emitLoadInputs u s ins) OpCode.JF 0 0) t ht).instr_ext
  obtain ⟨de, hde⟩ := (emitCodeForBlock_emits u (emitIfElseEntry u s ins t) e he).instr_ext
  refine ⟨dt, de, rfl, hdt, hde, ?_⟩
  have hB : (insertInstruction (emitLoadInputs u s ins) OpCode.JF 0 0).instructions =
      (emitLoadInputs u s ins).instructions ++ [⟨OpCode.JF, 0, 0⟩] := rfl
  have hE : (emitIfElseEntry u s ins t).instructions =
      (emitLoadInputs u s ins).instructions ++
        ⟨OpCode.JF, (dt.length : Int) + 2, 0⟩ :: (dt ++ [⟨OpCode.JMP, 0, 0⟩]) := by
    unfold emitIfElseEntry
    dsimp only
    rw [show (insertInstruction (emitCodeForBlock u
        (insertInstruction (emitLoadInputs u s ins) OpCode.JF 0 0) t) OpCode.JMP 0 0).instructions =
      (emitCodeForBlock u (insertInstruction (emitLoadInputs u s ins) OpCode.JF 0 0) t).instructions
        ++ [⟨OpCode.JMP, 0, 0⟩] from rfl]
    rw [hdt, hB]
    rw [show (((emitLoadInputs u s ins).instructions ++ [(⟨OpCode.JF, 0, 0⟩ : Instruction)]) ++ dt)
          ++ [(⟨OpCode.JMP, 0, 0⟩ : Instruction)] =
        (emitLoadInputs u s ins).instructions ++
          (⟨OpCode.JF, 0, 0⟩ : Instruction) :: (dt ++ [⟨OpCode.JMP, 0, 0⟩]) by simp]
    rw [patchX_start]
    have hv : (((emitLoadInputs u s ins).instructions ++
          (⟨OpCode.JF, 0, 0⟩ : Instruction) :: (dt ++ [⟨OpCode.JMP, 0, 0⟩])).length : Int) -
        ((emitLoadInputs u s ins).instructions.length : Int) = (dt.length : Int) + 2 := by
      simp only [List.length_append, List.length_cons, List.length_nil]
      push_cast
      omega
    rw [hv]
  rw [emitIf_decompose, hde, hE]
  have hidx : ((emitLoadInputs u s ins).instructions ++
        (⟨OpCode.JF, (dt.length : Int) + 2, 0⟩ : Instruction) :: (dt ++ [⟨OpCode.JMP, 0, 0⟩])).length - 1 =
      ((emitLoadInputs u s ins).instructions ++
        (⟨OpCode.JF, (dt.length : Int) + 2, 0⟩ : Instruction) :: dt).length := by
    simp only [List.length_append, List.length_cons, List.length_nil]
    omega
  rw [hidx]
  rw [show ((emitLoadInputs u s ins).instructions ++
        (⟨OpCode.JF, (dt.length : Int) + 2, 0⟩ : Instruction) :: (dt ++ [⟨OpCode.JMP, 0, 0⟩])) ++ de =
      ((emitLoadInputs u s ins).instructions ++
        (⟨OpCode.JF, (dt.length : Int) + 2, 0⟩ : Instruction) :: dt) ++
        (⟨OpCode.JMP, 0, 0⟩ : Instruction) :: de by simp]
  rw [patchX_start]
  have hx2 : ((((emitLoadInputs u s ins).instructions ++
        (⟨OpCode.JF, (dt.length : Int) + 2, 0⟩ : Instruction) :: dt) ++
        (⟨OpCode.JMP, 0, 0⟩ : Instruction) :: de).length : Int) -
      ((((emitLoadInputs u s ins).instructions ++
        (⟨OpCode.JF, (dt.length : Int) + 2, 0⟩ : Instruction) :: (dt ++ [⟨OpCode.JMP, 0, 0⟩])).length : Int) - 1) =
      (de.length : Int) + 1 := by
    simp only [List.length_append, List.length_cons, List.length_nil]
    push_cast
    omega
  rw [hx2]
  simp

/-- C5 (amended): emitting a Loop node produces a LOADC of a fresh constant 0
(the initial trip count), the loop-input loads, a LOOP instruction whose
auxiliary operand N is the loop node's input arity (so 0 only when the node
has no inputs at all), the body once, and a backward JMP whose target is the
LOOP instruction itself; the backpatched forward-skip offset X of the LOOP
equals body_length + 2, pointing just past the JMP. -/
theorem c5_emitLoop_shape (u : Nat → Nat) (s : CodeState) (ins : List Operand)
    (b : Block) (outs : List Nat)
    (h1 : operandsSimple ins = true) (hb : b.wfB = true) :
    ∃ dl db : List Instruction,
      emitNode u s (Node.loopNode ins b outs) = emitLoop u s ins b ∧
      (emitLoadInputs u (insertInstruction (insertConstant s 0).2 OpCode.LOADC
          ((insertConstant s 0).1 : Int) 0) ins).instructions =
        (insertInstruction (insertConstant s 0).2 OpCode.LOADC
          ((insertConstant s 0).1 : Int) 0).instructions ++ dl ∧
      (emitCodeForBlock u (insertInstruction (emitLoadInputs u
          (insertInstruction (insertConstant s 0).2 OpCode.LOADC
            ((insertConstant s 0).1 : Int) 0) ins) OpCode.LOOP 0 ins.length) b).instructions =
        (insertInstruction (emitLoadInputs u (insertInstruction (insertConstant s 0).2
          OpCode.LOADC ((insertConstant s 0).1 : Int) 0) ins)
            OpCode.LOOP 0 ins.length).instructions ++ db ∧
      (emitLoop u s ins b).instructions =
        s.instructions ++ ⟨OpCode.LOADC, (s.constant_table.length : Int), 0⟩ ::
          (dl ++ ⟨OpCode.LOOP, (db.length : Int) + 2, ins.length⟩ ::
            (db ++ [⟨OpCode.JMP, -((db.length : Int) + 1), 0⟩])) ∧
      ((s.instructions.length + 1 + dl.length + 1 + db.length : Int)) +
          (-((db.length : Int) + 1)) =
        ((s.instructions.length : Int) + 1 + dl.length) := by
  obtain ⟨dl, hdl⟩ := (emitLoadInputs_emits u (insertInstruction (insertConstant s 0).2
    OpCode.LOADC ((insertConstant s 0).1 : Int) 0) ins h1).1
  obtain ⟨hdl1, hdl2⟩ := hdl
  obtain ⟨db, hdb⟩ := (emitCodeForBlock_emits u (insertInstruction (emitLoadInputs u
    (insertInstruction (insertConstant s 0).2 OpCode.LOADC ((insertConstant s 0).1 : Int) 0) ins)
    OpCode.LOOP 0 ins.length) b hb).instr_ext
  refine ⟨dl, db, rfl, hdl1, hdb, ?_, by omega⟩
  unfold emitLoop
  dsimp only
  rw [show (insertInstruction (emitCodeForBlock u (insertInstruction (emitLoadInputs u
      (insertInstruction (insertConstant s 0).2 OpCode.LOADC ((insertConstant s 0).1 : Int) 0) ins)
      OpCode.LOOP 0 ins.length) b) OpCode.JMP _ 0).instructions =
    (emitCodeForBlock u (insertInstruction (emitLoadInputs u
      (insertInstruction (insertConstant s 0).2 OpCode.LOADC ((insertConstant s 0).1 : Int) 0) ins)
      OpCode.LOOP 0 ins.length) b).instructions ++
      [⟨OpCode.JMP, ((emitLoadInputs u (insertInstruction (insertConstant s 0).2 OpCode.LOADC
        ((insertConstant s 0).1 : Int) 0) ins).instructions.length : Int) -
        ((emitCodeForBlock u (insertInstruction (emitLoadInputs u
          (insertInstruction (insertConstant s 0).2 OpCode.LOADC ((insertConstant s 0).1 : Int) 0) ins)
          OpCode.LOOP 0 ins.length) b).instructions.length : Int), 0⟩] from rfl]
  rw [hdb]
  rw [show (insertInstruction (emitLoadInputs u (insertInstruction (insertConstant s 0).2
      OpCode.LOADC ((insertConstant s 0).1 : Int) 0) ins) OpCode.LOOP 0 ins.length).instructions =
    (emitLoadInputs u (insertInstruction (insertConstant s 0).2
      OpCode.LOADC ((insertConstant s 0).1 : Int) 0) ins).instructions ++
      [⟨OpCode.LOOP, 0, ins.length⟩] from rfl]
  rw [hdl1]
  rw [show (insertInstruction (insertConstant s 0).2 OpCode.LOADC
      ((insertConstant s 0).1 : Int) 0).instructions =
    s.instructions ++ [⟨OpCode.LOADC, (s.constant_table.length : Int), 0⟩] from rfl]
  rw [show ((s.instructions ++ [(⟨OpCode.LOADC, (s.constant_table.length : Int), 0⟩ : Instruction)] ++ dl).length : Int) -
      ((s.instructions ++ [(⟨OpCode.LOADC, (s.constant_table.length : Int), 0⟩ : Instruction)] ++ dl ++
        [(⟨OpCode.LOOP, 0, ins.length⟩ : Instruction)] ++ db).length : Int) =
      -((db.length : Int) + 1) by
    simp only [List.length_append, List.length_cons, List.length_nil]
    push_cast
    omega]
  rw [show s.instructions ++ [(⟨OpCode.LOADC, (s.constant_table.length : Int), 0⟩ : Instruction)] ++ dl ++
      [(⟨OpCode.LOOP, 0, ins.length⟩ : Instruction)] ++ db ++
      [(⟨OpCode.JMP, -((db.length : Int) + 1), 0⟩ : Instruction)] =
    (s.instructions ++ [(⟨OpCode.LOADC, (s.constant_table.length : Int), 0⟩ : Instruction)] ++ dl) ++
      (⟨OpCode.LOOP, 0, ins.length⟩ : Instruction) ::
        (db ++ [(⟨OpCode.JMP, -((db.length : Int) + 1), 0⟩ : Instruction)]) by simp]
  rw [patchX_start]
  rw [show (((s.instructions ++ [(⟨OpCode.LOADC, (s.constant_table.length : Int), 0⟩ : Instruction)] ++ dl) ++
      (⟨OpCode.LOOP, 0, ins.length⟩ : Instruction) ::
        (db ++ [(⟨OpCode.JMP, -((db.length : Int) + 1), 0⟩ : Instruction)])).length : Int) -
      ((s.instructions ++ [(⟨OpCode.LOADC, (s.constant_table.length : Int), 0⟩ : Instruction)] ++ dl).length : Int) =
      (db.length : Int) + 2 by
    simp only [List.length_append, List.length_cons, List.length_nil]
    push_cast
    omega]
  simp

/-- Witness for C4 (amended) at the `z = if (cond) a+b else a-b` scenario. -/
theorem c4_emitIf_offsets_witness :
    (Block.wfB gIfThen = true ∧ Block.wfB gIfElse = true) ∧
    ∃ dt de : List Instruction,
      emitNode (totalUses gIfEx) (emitStoreOutputs initState [1, 2, 3])
          (Node.ifNode [Operand.ref 3 false] gIfThen gIfElse [6]) =
        emitIf (totalUses gIfEx) (emitStoreOutputs initState [1, 2, 3])
          [Operand.ref 3 false] gIfThen gIfElse ∧
      (emitCodeForBlock (totalUses gIfEx) (insertInstruction (emitLoadInputs (totalUses gIfEx)
          (emitStoreOutputs initState [1, 2, 3]) [Operand.ref 3 false]) OpCode.JF 0 0)
            gIfThen).instructions =
        (insertInstruction (emitLoadInputs (totalUses gIfEx)
          (emitStoreOutputs initState [1, 2, 3]) [Operand.ref 3 false]) OpCode.JF 0 0).instructions ++ dt ∧
      (emitCodeForBlock (totalUses gIfEx) (emitIfElseEntry (totalUses gIfEx)
          (emitStoreOutputs initState [1, 2, 3]) [Operand.ref 3 false] gIfThen)
            gIfElse).instructions =
        (emitIfElseEntry (totalUses gIfEx) (emitStoreOutputs initState [1, 2, 3])
          [Operand.ref 3 false] gIfThen).instructions ++ de ∧
      (emitIf (totalUses gIfEx) (emitStoreOutputs initState [1, 2, 3])
          [Operand.ref 3 false] gIfThen gIfElse).instructions =
        (emitLoadInputs (totalUses gIfEx) (emitStoreOutputs initState [1, 2, 3])
          [Operand.ref 3 false]).instructions ++
          ⟨OpCode.JF, (dt.length : Int) + 2, 0⟩ ::
            (dt ++ ⟨OpCode.JMP, (de.length : Int) + 1, 0⟩ :: de) :=
  ⟨⟨by decide, by decide⟩,
    c4_emitIf_offsets (totalUses gIfEx) (emitStoreOutputs initState [1, 2, 3])
      [Operand.ref 3 false] gIfThen gIfElse [6] (by decide) (by decide)⟩

/-- C4 counterexample: on the `z = if (cond) a+b else a-b` scenario graph, the
true branch emits 5 instructions (LOAD a, LOAD b, OP, STORE, MOVE of the
branch output) and the finalized JF offset is 7 = 5 + 2, not 5 + 1 as the
claim states. -/
theorem c4_counterexample :
    (CodeImpl.run gIfEx).instructions[2]? = some ⟨OpCode.JF, 7, 0⟩ ∧
    (emitCodeForBlock (totalUses gIfEx) (insertInstruction (emitLoadInputs (totalUses gIfEx)
        (emitStoreOutputs initState [1, 2, 3]) [Operand.ref 3 false]) OpCode.JF 0 0)
          gIfThen).instructions.length -
      (insertInstruction (emitLoadInputs (totalUses gIfEx) (emitStoreOutputs initState [1, 2, 3])
        [Operand.ref 3 false]) OpCode.JF 0 0).instructions.length = 5 ∧
    ¬ ((7 : Int) = 5 + 1) := by
  exact ⟨by decide, by decide, by decide⟩

/-- Witness for C5 (amended) at the empty-body Loop scenario. -/
theorem c5_emitLoop_shape_witness :
    (operandsSimple [Operand.ref 1 false, Operand.ref 2 false] = true ∧
      Block.wfB gLoopBody = true) ∧
    ∃ dl db : List Instruction,
      emitNode (totalUses gLoopEx) (emitStoreOutputs initState [1, 2])
          (Node.loopNode [Operand.ref 1 false, Operand.ref 2 false] gLoopBody []) =
        emitLoop (totalUses gLoopEx) (emitStoreOutputs initState [1, 2])
          [Operand.ref 1 false, Operand.ref 2 false] gLoopBody ∧
      (emitLoadInputs (totalUses gLoopEx) (insertInstruction
          (insertConstant (emitStoreOutputs initState [1, 2]) 0).2 OpCode.LOADC
          ((insertConstant (emitStoreOutputs initState [1, 2]) 0).1 : Int) 0)
          [Operand.ref 1 false, Operand.ref 2 false]).instructions =
        (insertInstruction (insertConstant (emitStoreOutputs initState [1, 2]) 0).2 OpCode.LOADC
          ((insertConstant (emitStoreOutputs initState [1, 2]) 0).1 : Int) 0).instructions ++ dl ∧
      (emitCodeForBlock (totalUses gLoopEx) (insertInstruction (emitLoadInputs (totalUses gLoopEx)
          (insertInstruction (insertConstant (emitStoreOutputs initState [1, 2]) 0).2 OpCode.LOADC
            ((insertConstant (emitStoreOutputs initState [1, 2]) 0).1 : Int) 0)
          [Operand.ref 1 false, Operand.ref 2 false]) OpCode.LOOP 0
            [Operand.ref 1 false, Operand.ref 2 false].length) gLoopBody).instructions =
        (insertInstruction (emitLoadInputs (totalUses gLoopEx)
          (insertInstruction (insertConstant (emitStoreOutputs initState [1, 2]) 0).2 OpCode.LOADC
            ((insertConstant (emitStoreOutputs initState [1, 2]) 0).1 : Int) 0)
          [Operand.ref 1 false, Operand.ref 2 false]) OpCode.LOOP 0
            [Operand.ref 1 false, Operand.ref 2 false].length).instructions ++ db ∧
      (emitLoop (totalUses gLoopEx) (emitStoreOutputs initState [1, 2])
          [Operand.ref 1 false, Operand.ref 2 false] gLoopBody).instructions =
        (emitStoreOutputs initState [1, 2]).instructions ++
          ⟨OpCode.LOADC, ((emitStoreOutputs initState [1, 2]).constant_table.length : Int), 0⟩ ::
          (dl ++ ⟨OpCode.LOOP, (db.length : Int) + 2,
              [Operand.ref 1 false, Operand.ref 2 false].length⟩ ::
            (db ++ [⟨OpCode.JMP, -((db.length : Int) + 1), 0⟩])) ∧
      (((emitStoreOutputs initState [1, 2]).instructions.length + 1 + dl.length + 1 + db.length : Int)) +
          (-((db.length : Int) + 1)) =
        (((emitStoreOutputs initState [1, 2]).instructions.length : Int) + 1 + dl.length) :=
  ⟨⟨by decide, by decide⟩,
    c5_emitLoop_shape (totalUses gLoopEx) (emitStoreOutputs initState [1, 2])
      [Operand.ref 1 false, Operand.ref 2 false] gLoopBody [] (by decide) (by decide)⟩

/-- C5 counterexample: on the empty-body Loop scenario the body emits 0
instructions, yet the emitted LOOP instruction carries N = 2 (the loop node's
input arity: trip count and initial condition), not 0, and its backpatched
forward-skip offset is X = 2 = 0 + 2, not 0 + 1 as the claim states. -/
theorem c5_counterexample :
    (CodeImpl.run gLoopEx).instructions[4]? = some ⟨OpCode.LOOP, 2, 2⟩ ∧
    (emitCodeForBlock (totalUses gLoopEx) (insertInstruction (emitLoadInputs (totalUses gLoopEx)
        (insertInstruction (insertConstant (emitStoreOutputs initState [1, 2]) 0).2 OpCode.LOADC
          ((insertConstant (emitStoreOutputs initState [1, 2]) 0).1 : Int) 0)
        [Operand.ref 1 false, Operand.ref 2 false]) OpCode.LOOP 0 2) gLoopBody).instructions.length -
      (insertInstruction (emitLoadInputs (totalUses gLoopEx)
        (insertInstruction (insertConstant (emitStoreOutputs initState [1, 2]) 0).2 OpCode.LOADC
          ((insertConstant (emitStoreOutputs initState [1, 2]) 0).1 : Int) 0)
        [Operand.ref 1 false, Operand.ref 2 false]) OpCode.LOOP 0 2).instructions.length = 0 ∧
    ¬ ((2 : Int) = 0 + 1) ∧ ¬ ((2 : Nat) = 0) := by
  exact ⟨by decide, by decide, by decide, by decide⟩

/-! ### Claim C2: insertBailoutBlocks appends in order and patches the JFs -/

theorem insertBailoutBlocksAux_length (bs : List BailoutBlock) (instrs : List Instruction) :
    (insertBailoutBlocksAux instrs bs).length =
      instrs.length + ((bs.map fun b => b.instructions).flatten).length := by
  induction bs generalizing instrs with
  | nil => simp [insertBailoutBlocksAux]
  | cons b bs ih =>
    simp only [insertBailoutBlocksAux]
    rw [ih]
    simp [patchX_length]
    omega

theorem insertBailoutBlocksAux_low (bs : List BailoutBlock) (instrs : List Instruction)
    (j : Nat) (hj : j < instrs.length) (hnot : ∀ b ∈ bs, j ≠ b.jf_instruction_index) :
    (insertBailoutBlocksAux instrs bs)[j]? = instrs[j]? := by
  induction bs generalizing instrs with
  | nil => rfl
  | cons b bs ih =>
    simp only [insertBailoutBlocksAux]
    rw [ih _ (by simp only [List.length_append, patchX_length] ; omega)
      (fun b2 hb2 => hnot b2 (List.mem_cons_of_mem b hb2))]
    rw [List.getElem?_append_left (by rw [patchX_length]; exact hj)]
    exact patchX_getElem_ne _ _ _ _ (hnot b (List.mem_cons_self b bs))

theorem insertBailoutBlocksAux_suffix (bs : List BailoutBlock) (instrs : List Instruction)
    (hlt : ∀ b ∈ bs, b.jf_instruction_index < instrs.length) (m : Nat) :
    (insertBailoutBlocksAux instrs bs)[instrs.length + m]? =
      ((bs.map fun b => b.instructions).flatten)[m]? := by
  induction bs generalizing instrs m with
  | nil =>
    simp only [insertBailoutBlocksAux, List.map_nil, List.flatten_nil]
    rw [List.getElem?_eq_none (by omega)]
    simp
  | cons b bs ih =>
    simp only [insertBailoutBlocksAux, List.map_cons, List.flatten_cons]
    by_cases hm : m < b.instructions.length
    · rw [insertBailoutBlocksAux_low bs _ (instrs.length + m)
        (by simp only [List.length_append, patchX_length] ; omega)
        (fun b2 hb2 => by have := hlt b2 (List.mem_cons_of_mem b hb2); omega)]
      rw [List.getElem?_append_right (by rw [patchX_length]; omega), patchX_length]
      rw [show instrs.length + m - instrs.length = m by omega]
      rw [List.getElem?_append_left hm]
    · have harith : instrs.length + m =
          (patchX instrs b.jf_instruction_index
            ((instrs.length : Int) - (b.jf_instruction_index : Int)) ++ b.instructions).length +
          (m - b.instructions.length) := by
        simp only [List.length_append, patchX_length]
        omega
      have hlt2 : ∀ b2 ∈ bs, b2.jf_instruction_index <
          (patchX instrs b.jf_instruction_index
            ((instrs.length : Int) - (b.jf_instruction_index : Int)) ++ b.instructions).length := by
        intro b2 hb2
        have := hlt b2 (List.mem_cons_of_mem b hb2)
        simp only [List.length_append, patchX_length]
        omega
      rw [harith, ih _ hlt2]
      rw [List.getElem?_append_right (by omega)]

theorem insertBailoutBlocksAux_patched (bs : List BailoutBlock) (instrs : List Instruction)
    (hlt : ∀ b ∈ bs, b.jf_instruction_index < instrs.length)
    (hnd : bs.Pairwise (fun a b2 => a.jf_instruction_index ≠ b2.jf_instruction_index))
    (k : Nat) (hk : k < bs.length) :
    ∃ ins0 : Instruction,
      instrs[(bs.get ⟨k, hk⟩).jf_instruction_index]? = some ins0 ∧
      (insertBailoutBlocksAux instrs bs)[(bs.get ⟨k, hk⟩).jf_instruction_index]? =
        some ⟨ins0.op, (blockStart instrs bs k : Int) -
          ((bs.get ⟨k, hk⟩).jf_instruction_index : Int), ins0.N⟩ := by
  induction bs generalizing instrs k with
  | nil => simp at hk
  | cons b bs ih =>
    have hjf0 : b.jf_instruction_index < instrs.length := hlt b (List.mem_cons_self b bs)
    cases k with
    | zero =>
      obtain ⟨ins0, hins0⟩ : ∃ ins0, instrs[b.jf_instruction_index]? = some ins0 := by
        rw [List.getElem?_eq_getElem hjf0]
        exact ⟨_, rfl⟩
      refine ⟨ins0, hins0, ?_⟩
      simp only [insertBailoutBlocksAux]
      rw [show ((b :: bs).get ⟨0, hk⟩) = b from rfl]
      rw [insertBailoutBlocksAux_low bs _ b.jf_instruction_index
        (by simp only [List.length_append, patchX_length] ; omega)
        (fun b2 hb2 => (List.pairwise_cons.mp hnd).1 b2 hb2)]
      rw [List.getElem?_append_left (by rw [patchX_length]; exact hjf0)]
      rw [patchX_getElem_eq _ _ _ hjf0, hins0]
      rw [show blockStart instrs (b :: bs) 0 = instrs.length by simp [blockStart]]
      simp
    | succ k =>
      have hk2 : k < bs.length := by simpa using hk
      have hlt2 : ∀ b2 ∈ bs, b2.jf_instruction_index <
          (patchX instrs b.jf_instruction_index
            ((instrs.length : Int) - (b.jf_instruction_index : Int)) ++ b.instructions).length := by
        intro b2 hb2
        have := hlt b2 (List.mem_cons_of_mem b hb2)
        simp only [List.length_append, patchX_length]
        omega
      obtain ⟨ins0, h1, h2⟩ := ih _ hlt2 (List.pairwise_cons.mp hnd).2 k hk2
      have hmemk : bs.get ⟨k, hk2⟩ ∈ bs := List.get_mem bs k hk2
      have hjfk : (bs.get ⟨k, hk2⟩).jf_instruction_index < instrs.length :=
        hlt _ (List.mem_cons_of_mem b hmemk)
      have hne : (bs.get ⟨k, hk2⟩).jf_instruction_index ≠ b.jf_instruction_index :=
        fun hcontra => ((List.pairwise_cons.mp hnd).1 _ hmemk) hcontra.symm
      have h1b : instrs[(bs.get ⟨k, hk2⟩).jf_instruction_index]? = some ins0 := by
        rw [← h1]
        rw [List.getElem?_append_left (by rw [patchX_length]; exact hjfk)]
        rw [patchX_getElem_ne _ _ _ _ hne]
      refine ⟨ins0, h1b, ?_⟩
      simp only [insertBailoutBlocksAux]
      rw [show ((b :: bs).get ⟨k + 1, hk⟩) = bs.get ⟨k, hk2⟩ from rfl]
      rw [h2]
      have hbsX : blockStart (patchX instrs b.jf_instruction_index
            ((instrs.length : Int) - (b.jf_instruction_index : Int)) ++ b.instructions) bs k =
          blockStart instrs (b :: bs) (k + 1) := by
        simp only [blockStart, List.length_append, patchX_length, List.take_succ_cons,
          List.map_cons, List.sum_cons]
        omega
      rw [hbsX]

/-- C2: insertBailoutBlocks appends the deferred bailout instruction streams
to the end of the main program in the order the BailoutBlocks were created,
leaves every non-patched main instruction unchanged, and patches the X
operand of the JF instruction recorded at each block's jf_instruction_index
so that jf_instruction_index + X equals the index of the first instruction of
that appended block (`blockStart`). -/
theorem c2_insertBailoutBlocks (instrs : List Instruction) (bs : List BailoutBlock)
    (hlt : ∀ b ∈ bs, b.jf_instruction_index < instrs.length)
    (hnd : bs.Pairwise (fun a b2 => a.jf_instruction_index ≠ b2.jf_instruction_index)) :
    (∀ s : CodeState, (insertBailoutBlocks s).instructions =
      insertBailoutBlocksAux s.instructions s.bailout_blocks) ∧
    (insertBailoutBlocksAux instrs bs).length =
      instrs.length + ((bs.map fun b => b.instructions).flatten).length ∧
    (insertBailoutBlocksAux instrs bs).drop instrs.length =
      (bs.map fun b => b.instructions).flatten ∧
    (∀ j, j < instrs.length → (∀ b ∈ bs, j ≠ b.jf_instruction_index) →
      (insertBailoutBlocksAux instrs bs)[j]? = instrs[j]?) ∧
    ∀ k, (hk : k < bs.length) → ∃ ins0 : Instruction,
      instrs[(bs.get ⟨k, hk⟩).jf_instruction_index]? = some ins0 ∧
      (insertBailoutBlocksAux instrs bs)[(bs.get ⟨k, hk⟩).jf_instruction_index]? =
        some ⟨ins0.op, (blockStart instrs bs k : Int) -
          ((bs.get ⟨k, hk⟩).jf_instruction_index : Int), ins0.N⟩ := by
  refine ⟨fun s => rfl, insertBailoutBlocksAux_length bs instrs, ?_,
    fun j hj hnot => insertBailoutBlocksAux_low bs instrs j hj hnot,
    fun k hk => insertBailoutBlocksAux_patched bs instrs hlt hnd k hk⟩
  apply List.ext_getElem?
  intro m
  rw [List.getElem?_drop]
  exact insertBailoutBlocksAux_suffix bs instrs hlt m

/-- Witness for C2 on the compiled single-BailOut scenario graph: the main
(RET-terminated) program has 7 instructions, the single deferred block's JF at
index 3 is patched to offset 4 (so its target 3 + 4 = 7 equals the main
program length), and the appended stream ends in a TAIL_CALL. -/
theorem c2_insertBailoutBlocks_witness :
    ((∀ b ∈ (insertInstruction (emitCodeForBlock (totalUses gBailEx) initState gBailEx)
          OpCode.RET 0 0).bailout_blocks,
        b.jf_instruction_index < (insertInstruction (emitCodeForBlock (totalUses gBailEx)
          initState gBailEx) OpCode.RET 0 0).instructions.length) ∧
      (insertInstruction (emitCodeForBlock (totalUses gBailEx) initState gBailEx)
          OpCode.RET 0 0).bailout_blocks.Pairwise
        (fun a b2 => a.jf_instruction_index ≠ b2.jf_instruction_index) ∧
      (insertInstruction (emitCodeForBlock (totalUses gBailEx) initState gBailEx)
          OpCode.RET 0 0).instructions.length = 7 ∧
      countGuards (CodeImpl.run gBailEx).instructions = 1 ∧
      (CodeImpl.run gBailEx).instructions[3]? = some ⟨OpCode.JF, 4, 0⟩ ∧
      ((3 : Int) + 4 = 7) ∧
      (CodeImpl.run gBailEx).instructions.getLast? = some ⟨OpCode.TAIL_CALL, 0, 0⟩) ∧
    ((∀ s : CodeState, (insertBailoutBlocks s).instructions =
      insertBailoutBlocksAux s.instructions s.bailout_blocks) ∧
    (insertBailoutBlocksAux (insertInstruction (emitCodeForBlock (totalUses gBailEx) initState
        gBailEx) OpCode.RET 0 0).instructions
      (insertInstruction (emitCodeForBlock (totalUses gBailEx) initState gBailEx)
        OpCode.RET 0 0).bailout_blocks).length =
      (insertInstruction (emitCodeForBlock (totalUses gBailEx) initState gBailEx)
        OpCode.RET 0 0).instructions.length +
      (((insertInstruction (emitCodeForBlock (totalUses gBailEx) initState gBailEx)
        OpCode.RET 0 0).bailout_blocks.map fun b => b.instructions).flatten).length ∧
    (insertBailoutBlocksAux (insertInstruction (emitCodeForBlock (totalUses gBailEx) initState
        gBailEx) OpCode.RET 0 0).instructions
      (insertInstruction (emitCodeForBlock (totalUses gBailEx) initState gBailEx)
        OpCode.RET 0 0).bailout_blocks).drop
      (insertInstruction (emitCodeForBlock (totalUses gBailEx) initState gBailEx)
        OpCode.RET 0 0).instructions.length =
      ((insertInstruction (emitCodeForBlock (totalUses gBailEx) initState gBailEx)
        OpCode.RET 0 0).bailout_blocks.map fun b => b.instructions).flatten ∧
    (∀ j, j < (insertInstruction (emitCodeForBlock (totalUses gBailEx) initState gBailEx)
        OpCode.RET 0 0).instructions.length →
      (∀ b ∈ (insertInstruction (emitCodeForBlock (totalUses gBailEx) initState gBailEx)
        OpCode.RET 0 0).bailout_blocks, j ≠ b.jf_instruction_index) →
      (insertBailoutBlocksAux (insertInstruction (emitCodeForBlock (totalUses gBailEx) initState
          gBailEx) OpCode.RET 0 0).instructions
        (insertInstruction (emitCodeForBlock (totalUses gBailEx) initState gBailEx)
          OpCode.RET 0 0).bailout_blocks)[j]? =
        (insertInstruction (emitCodeForBlock (totalUses gBailEx) initState gBailEx)
          OpCode.RET 0 0).instructions[j]?) ∧
    ∀ k, (hk : k < (insertInstruction (emitCodeForBlock (totalUses gBailEx) initState gBailEx)
        OpCode.RET 0 0).bailout_blocks.length) → ∃ ins0 : Instruction,
      (insertInstruction (emitCodeForBlock (totalUses gBailEx) initState gBailEx)
        OpCode.RET 0 0).instructions[((insertInstruction (emitCodeForBlock (totalUses gBailEx)
          initState gBailEx) OpCode.RET 0 0).bailout_blocks.get ⟨k, hk⟩).jf_instruction_index]? =
        some ins0 ∧
      (insertBailoutBlocksAux (insertInstruction (emitCodeForBlock (totalUses gBailEx) initState
          gBailEx) OpCode.RET 0 0).instructions
        (insertInstruction (emitCodeForBlock (totalUses gBailEx) initState gBailEx)
          OpCode.RET 0 0).bailout_blocks)[((insertInstruction (emitCodeForBlock (totalUses
            gBailEx) initState gBailEx) OpCode.RET 0 0).bailout_blocks.get
              ⟨k, hk⟩).jf_instruction_index]? =
        some ⟨ins0.op, (blockStart (insertInstruction (emitCodeForBlock (totalUses gBailEx)
            initState gBailEx) OpCode.RET 0 0).instructions
          (insertInstruction (emitCodeForBlock (totalUses gBailEx) initState gBailEx)
            OpCode.RET 0 0).bailout_blocks k : Int) -
          (((insertInstruction (emitCodeForBlock (totalUses gBailEx) initState gBailEx)
            OpCode.RET 0 0).bailout_blocks.get ⟨k, hk⟩).jf_instruction_index : Int), ins0.N⟩) :=
  ⟨⟨by decide, by decide, by decide, by decide, by decide, by decide, by decide⟩,
    c2_insertBailoutBlocks
      (insertInstruction (emitCodeForBlock (totalUses gBailEx) initState gBailEx)
        OpCode.RET 0 0).instructions
      (insertInstruction (emitCodeForBlock (totalUses gBailEx) initState gBailEx)
        OpCode.RET 0 0).bailout_blocks (by decide) (by decide)⟩

/-! ### Claim C9: the mobile pre-pass table -/

theorem alookup_setMaxArg_self (m : List (String × Nat)) (key : String) (v : Nat) :
    alookup (setMaxArg m key v) key = some (max v ((alookup m key).getD 0)) := by
  simp [setMaxArg, alookup]

theorem alookup_setMaxArg_ne (m : List (String × Nat)) (key key2 : String) (v : Nat)
    (h : key ≠ key2) : alookup (setMaxArg m key v) key2 = alookup m key2 := by
  simp [setMaxArg, alookup, h]

theorem foldr_max_pull (l : List Nat) (a i : Nat) :
    l.foldr max (max a i) = max a (l.foldr max i) := by
  induction l with
  | nil => rfl
  | cons x l ih =>
    simp only [List.foldr_cons, ih]
    omega

theorem processOpsFold_lookup (ns : List Node) (m : List (String × Nat)) (key : String) :
    alookup (processOpsFold m ns) key =
      if specifiedArgSites ns key = [] then alookup m key
      else some ((specifiedArgSites ns key).foldr max ((alookup m key).getD 0)) := by
  induction ns generalizing m with
  | nil => simp [processOpsFold, specifiedArgSites]
  | cons n ns ih =>
    cases n with
    | opNode vararg nm ov nec ins outs =>
      by_cases hv : vararg = true
      · subst hv
        have h1 : processOpsFold m (Node.opNode true nm ov nec ins outs :: ns) =
            processOpsFold m ns := rfl
        have h2 : specifiedArgSites (Node.opNode true nm ov nec ins outs :: ns) key =
            specifiedArgSites ns key := by
          simp [specifiedArgSites]
        rw [h1, h2]
        exact ih m
      · have hv2 : vararg = false := by simpa using hv
        subst hv2
        have h1 : processOpsFold m (Node.opNode false nm ov nec ins outs :: ns) =
            processOpsFold (setMaxArg m (uniqueName nm ov) nec) ns := rfl
        rw [h1]
        by_cases hkey : uniqueName nm ov = key
        · have h2 : specifiedArgSites (Node.opNode false nm ov nec ins outs :: ns) key =
              nec :: specifiedArgSites ns key := by
            simp [specifiedArgSites, hkey]
          rw [h2, ih (setMaxArg m (uniqueName nm ov) nec), hkey, alookup_setMaxArg_self]
          by_cases hemp : specifiedArgSites ns key = []
          · rw [if_pos hemp]
            simp [hemp]
          · rw [if_neg hemp, if_neg (show ¬nec :: specifiedArgSites ns key = [] by simp)]
            simp only [Option.getD_some, List.foldr_cons]
            exact congrArg some (foldr_max_pull _ _ _)
        · have h2 : specifiedArgSites (Node.opNode false nm ov nec ins outs :: ns) key =
              specifiedArgSites ns key := by
            simp [specifiedArgSites, hkey]
          rw [h2, ih (setMaxArg m (uniqueName nm ov) nec),
            alookup_setMaxArg_ne _ _ _ _ hkey]
    | constant out v fn =>
      simpa [processOpsFold, specifiedArgSites, List.filterMap_cons] using ih m
    | ifNode ins t e outs =>
      simpa [processOpsFold, specifiedArgSites, List.filterMap_cons] using ih m
    | loopNode ins b outs =>
      simpa [processOpsFold, specifiedArgSites, List.filterMap_cons] using ih m
    | bailOutNode ins outs =>
      simpa [processOpsFold, specifiedArgSites, List.filterMap_cons] using ih m

/-- C9: after the mobile pre-pass (process_ops_for_mobile), for every unique
operator name (schema name, suffixed with "." plus the overload name when the
overload name is nonempty), op_to_num_specified_args_ maps the name to the
maximum, over all non-vararg call sites of that name in the graph, of the
per-call-site CalculateNecessaryArgs count; vararg schemas are skipped (a
name with no non-vararg call site is absent when starting from the fresh
compiler state), and the pass changes no other compiler state. -/
theorem c9_process_ops_for_mobile (s : CodeState) (g : Block) (key : String) :
    (alookup (MobileCodeImpl.process_ops_for_mobile s g).op_to_num_specified_args key =
      if specifiedArgSites g.allNodes key = [] then alookup s.op_to_num_specified_args key
      else some ((specifiedArgSites g.allNodes key).foldr max
        ((alookup s.op_to_num_specified_args key).getD 0))) ∧
    (alookup (MobileCodeImpl.process_ops_for_mobile initState g).op_to_num_specified_args key =
      if specifiedArgSites g.allNodes key = [] then none
      else some ((specifiedArgSites g.allNodes key).foldr max 0)) ∧
    (MobileCodeImpl.process_ops_for_mobile s g).instructions = s.instructions ∧
    (MobileCodeImpl.process_ops_for_mobile s g).constant_table = s.constant_table ∧
    (MobileCodeImpl.process_ops_for_mobile s g).operator_table = s.operator_table ∧
    (MobileCodeImpl.process_ops_for_mobile s g).function_table = s.function_table ∧
    (MobileCodeImpl.process_ops_for_mobile s g).type_table = s.type_table ∧
    (MobileCodeImpl.process_ops_for_mobile s g).register_size = s.register_size ∧
    (MobileCodeImpl.process_ops_for_mobile s g).value_to_reg = s.value_to_reg ∧
    (MobileCodeImpl.process_ops_for_mobile s g).use_count = s.use_count ∧
    (MobileCodeImpl.process_ops_for_mobile s g).bailout_blocks = s.bailout_blocks ∧
    (MobileCodeImpl.process_ops_for_mobile s g).bailout_functions = s.bailout_functions := by
  refine ⟨processOpsFold_lookup g.allNodes s.op_to_num_specified_args key, ?_,
    rfl, rfl, rfl, rfl, rfl, rfl, rfl, rfl, rfl, rfl⟩
  rw [show (MobileCodeImpl.process_ops_for_mobile initState g).op_to_num_specified_args =
    processOpsFold [] g.allNodes from rfl]
  rw [processOpsFold_lookup g.allNodes [] key]
  rfl

/-! ### Claim C10: the mobile pre-pass table never affects emission -/

theorem insertInstruction_args_map (s : CodeState) (m : List (String × Nat))
    (op : OpCode) (x : Int) (n : Nat) :
    insertInstruction { s with op_to_num_specified_args := m } op x n =
      { insertInstruction s op x n with op_to_num_specified_args := m } := rfl

theorem emitConstant_args_map (s : CodeState) (m : List (String × Nat))
    (out val : Nat) (fn : Bool) :
    emitConstant { s with op_to_num_specified_args := m } out val fn =
      { emitConstant s out val fn with op_to_num_specified_args := m } := by
  cases fn <;> rfl

theorem emitStoreOutputs_args_map (s : CodeState) (m : List (String × Nat))
    (outs : List Nat) :
    emitStoreOutputs { s with op_to_num_specified_args := m } outs =
      { emitStoreOutputs s outs with op_to_num_specified_args := m } := by
  unfold emitStoreOutputs
  by_cases h0 : outs.length = 0
  · rw [if_pos h0, if_pos h0]
  · rw [if_neg h0, if_neg h0]
    by_cases h1 : outs.length = 1
    · rw [if_pos h1, if_pos h1]
      rfl
    · rw [if_neg h1, if_neg h1]
      rfl

mutual

theorem emitUse_args_map (u : Nat → Nat) (s : CodeState) (m : List (String × Nat))
    (drop : Bool) (o : Operand) :
    emitUse u { s with op_to_num_specified_args := m } drop o =
      { emitUse u s drop o with op_to_num_specified_args := m } := by
  cases o with
  | inlined n =>
    cases drop
    · simp only [emitUse, Bool.false_eq_true, if_false]
      exact emitNode_args_map u s m n
    · simp only [emitUse, if_true]
      rw [emitNode_args_map u s m n]
      rfl
  | ref v isConst => rfl

theorem emitLoadInputs_args_map (u : Nat → Nat) (s : CodeState)
    (m : List (String × Nat)) (os : List Operand) :
    emitLoadInputs u { s with op_to_num_specified_args := m } os =
      { emitLoadInputs u s os with op_to_num_specified_args := m } := by
  cases os with
  | nil => rfl
  | cons o os =>
    simp only [emitLoadInputs]
    rw [emitUse_args_map u s m false o,
      emitLoadInputs_args_map u (emitUse u s false o) m os]

theorem emitNode_args_map (u : Nat → Nat) (s : CodeState) (m : List (String × Nat))
    (n : Node) :
    emitNode u { s with op_to_num_specified_args := m } n =
      { emitNode u s n with op_to_num_specified_args := m } := by
  cases n with
  | constant out v fn => exact emitConstant_args_map s m out v fn
  | opNode vararg nm ov nec ins outs =>
    simp only [emitNode]
    rw [emitLoadInputs_args_map u s m ins]
    cases vararg <;> rfl
  | ifNode ins t e outs =>
    simp only [emitNode]
    rw [emitLoadInputs_args_map u s m ins]
    rw [show insertInstruction { emitLoadInputs u s ins with op_to_num_specified_args := m } OpCode.JF 0 0 = { insertInstruction (emitLoadInputs u s ins) OpCode.JF 0 0 with op_to_num_specified_args := m } from rfl]
    rw [emitCodeForBlock_args_map u (insertInstruction (emitLoadInputs u s ins) OpCode.JF 0 0) m t]
    rw [show insertInstruction { emitCodeForBlock u (insertInstruction (emitLoadInputs u s ins) OpCode.JF 0 0) t with op_to_num_specified_args := m } OpCode.JMP 0 0 = { insertInstruction (emitCodeForBlock u (insertInstruction (emitLoadInputs u s ins) OpCode.JF 0 0) t) OpCode.JMP 0 0 with op_to_num_specified_args := m } from rfl]
    set D := insertInstruction (emitCodeForBlock u (insertInstruction (emitLoadInputs u s ins) OpCode.JF 0 0) t) OpCode.JMP 0 0 with hD
    set A := emitLoadInputs u s ins with hA
    rw [show ({ ({ D with op_to_num_specified_args := m } : CodeState) with instructions := patchX ({ D with op_to_num_specified_args := m } : CodeState).instructions ({ A with op_to_num_specified_args := m } : CodeState).instructions.length ((({ D with op_to_num_specified_args := m } : CodeState).instructions.length : Int) - (({ A with op_to_num_specified_args := m } : CodeState).instructions.length : Int)) } : CodeState) = { ({ D with instructions := patchX D.instructions A.instructions.length ((D.instructions.length : Int) - (A.instructions.length : Int)) } : CodeState) with op_to_num_specified_args := m } from rfl]
    rw [emitCodeForBlock_args_map u ({ D with instructions := patchX D.instructions A.instructions.length ((D.instructions.length : Int) - (A.instructions.length : Int)) } : CodeState) m e]
  | loopNode ins b outs =>
    simp only [emitNode]
    rw [show insertInstruction (insertConstant { s with op_to_num_specified_args := m } 0).2 OpCode.LOADC ((insertConstant { s with op_to_num_specified_args := m } 0).1 : Int) 0 = { insertInstruction (insertConstant s 0).2 OpCode.LOADC ((insertConstant s 0).1 : Int) 0 with op_to_num_specified_args := m } from rfl]
    set A := insertInstruction (insertConstant s 0).2 OpCode.LOADC ((insertConstant s 0).1 : Int) 0 with hA
    rw [emitLoadInputs_args_map u A m ins]
    set B := emitLoadInputs u A ins with hB
    rw [show insertInstruction { B with op_to_num_specified_args := m } OpCode.LOOP 0 ins.length = { insertInstruction B OpCode.LOOP 0 ins.length with op_to_num_specified_args := m } from rfl]
    rw [emitCodeForBlock_args_map u (insertInstruction B OpCode.LOOP 0 ins.length) m b]
    rfl
  | bailOutNode ins outs =>
    cases ins with
    | nil => rfl
    | cons g0 tail =>
      cases tail with
      | nil => rfl
      | cons guarded rest =>
        simp only [emitNode]
        rw [emitUse_args_map u s m false guarded]
        set A := emitUse u s false guarded with hA
        rw [show insertInstruction (insertInstruction (emitType ({ A with op_to_num_specified_args := m } : CodeState)).2 OpCode.GUARD ((emitType ({ A with op_to_num_specified_args := m } : CodeState)).1 : Int) 0) OpCode.JF 0 0 = { insertInstruction (insertInstruction (emitType A).2 OpCode.GUARD ((emitType A).1 : Int) 0) OpCode.JF 0 0 with op_to_num_specified_args := m } from rfl]
        rw [emitLoadInputs_args_map u (insertInstruction (insertInstruction (emitType A).2 OpCode.GUARD ((emitType A).1 : Int) 0) OpCode.JF 0 0) m rest]
        rfl

theorem emitNodesAtBlockLevel_args_map (u : Nat → Nat) (s : CodeState)
    (m : List (String × Nat)) (ns : List Node) :
    emitNodesAtBlockLevel u { s with op_to_num_specified_args := m } ns =
      { emitNodesAtBlockLevel u s ns with op_to_num_specified_args := m } := by
  cases ns with
  | nil => rfl
  | cons n ns =>
    cases n with
    | constant out v fn =>
      simp only [emitNodesAtBlockLevel]
      rw [emitConstant_args_map s m out v fn,
        emitNodesAtBlockLevel_args_map u (emitConstant s out v fn) m ns]
    | opNode vararg nm ov nec ins outs =>
      simp only [emitNodesAtBlockLevel]
      rw [emitNode_args_map u s m (Node.opNode vararg nm ov nec ins outs),
        emitStoreOutputs_args_map (emitNode u s (Node.opNode vararg nm ov nec ins outs)) m
          (Node.opNode vararg nm ov nec ins outs).outputs,
        emitNodesAtBlockLevel_args_map u
          (emitStoreOutputs (emitNode u s (Node.opNode vararg nm ov nec ins outs))
            (Node.opNode vararg nm ov nec ins outs).outputs) m ns]
    | ifNode ins t e outs =>
      simp only [emitNodesAtBlockLevel]
      rw [emitNode_args_map u s m (Node.ifNode ins t e outs),
        emitStoreOutputs_args_map (emitNode u s (Node.ifNode ins t e outs)) m
          (Node.ifNode ins t e outs).outputs,
        emitNodesAtBlockLevel_args_map u
          (emitStoreOutputs (emitNode u s (Node.ifNode ins t e outs))
            (Node.ifNode ins t e outs).outputs) m ns]
    | loopNode ins b outs =>
      simp only [emitNodesAtBlockLevel]
      rw [emitNode_args_map u s m (Node.loopNode ins b outs),
        emitStoreOutputs_args_map (emitNode u s (Node.loopNode ins b outs)) m
          (Node.loopNode ins b outs).outputs,
        emitNodesAtBlockLevel_args_map u
          (emitStoreOutputs (emitNode u s (Node.loopNode ins b outs))
            (Node.loopNode ins b outs).outputs) m ns]
    | bailOutNode ins outs =>
      simp only [emitNodesAtBlockLevel]
      rw [emitNode_args_map u s m (Node.bailOutNode ins outs),
        emitStoreOutputs_args_map (emitNode u s (Node.bailOutNode ins outs)) m
          (Node.bailOutNode ins outs).outputs,
        emitNodesAtBlockLevel_args_map u
          (emitStoreOutputs (emitNode u s (Node.bailOutNode ins outs))
            (Node.bailOutNode ins outs).outputs) m ns]

theorem emitCodeForBlock_args_map (u : Nat → Nat) (s : CodeState)
    (m : List (String × Nat)) (b : Block) :
    emitCodeForBlock u { s with op_to_num_specified_args := m } b =
      { emitCodeForBlock u s b with op_to_num_specified_args := m } := by
  cases b with
  | mk params ns rs =>
    simp only [emitCodeForBlock]
    rw [emitStoreOutputs_args_map s m params,
      emitNodesAtBlockLevel_args_map u (emitStoreOutputs s params) m ns,
      emitLoadInputs_args_map u (emitNodesAtBlockLevel u (emitStoreOutputs s params) ns) m rs]

end

theorem insertBailoutBlocks_args_map (s : CodeState) (m : List (String × Nat)) :
    insertBailoutBlocks { s with op_to_num_specified_args := m } =
      { insertBailoutBlocks s with op_to_num_specified_args := m } := rfl

theorem mobileRun_eq_run (g : Block) :
    MobileCodeImpl.run g =
      { CodeImpl.run g with op_to_num_specified_args := processOpsFold initState.op_to_num_specified_args g.allNodes } := by
  simp only [MobileCodeImpl.run, MobileCodeImpl.process_ops_for_mobile, CodeImpl.run]
  rw [emitCodeForBlock_args_map (totalUses g) initState
    (processOpsFold initState.op_to_num_specified_args g.allNodes) g]
  rw [insertInstruction_args_map (emitCodeForBlock (totalUses g) initState g)
    (processOpsFold initState.op_to_num_specified_args g.allNodes) OpCode.RET 0 0]
  rw [insertBailoutBlocks_args_map
    (insertInstruction (emitCodeForBlock (totalUses g) initState g) OpCode.RET 0 0)
    (processOpsFold initState.op_to_num_specified_args g.allNodes)]

/-- C10: MobileCodeImpl::emitOperator delegates unchanged to
CodeImpl::emitOperator, and MobileCodeImpl emits exactly the same instruction
stream, operator table, constant table, register map and bailout blocks as
CodeImpl on every graph: the op_to_num_specified_args_ table computed by the
mobile pre-pass never affects emission. -/
theorem c10_mobile_refines_code (g : Block) :
    MobileCodeImpl.emitOperator = CodeImpl.emitOperator ∧
    (MobileCodeImpl.run g).instructions = (CodeImpl.run g).instructions ∧
    (MobileCodeImpl.run g).operator_table = (CodeImpl.run g).operator_table ∧
    (MobileCodeImpl.run g).constant_table = (CodeImpl.run g).constant_table ∧
    (MobileCodeImpl.run g).value_to_reg = (CodeImpl.run g).value_to_reg ∧
    (MobileCodeImpl.run g).register_size = (CodeImpl.run g).register_size ∧
    (MobileCodeImpl.run g).bailout_blocks = (CodeImpl.run g).bailout_blocks := by
  rw [mobileRun_eq_run g]
  exact ⟨rfl, rfl, rfl, rfl, rfl, rfl, rfl⟩
